import Mathlib

/-!
Shallow embedding of the mdadm block-storage controller (src/mdadm.c) and its
block cache (src/cache.c), together with proofs of the specification claims.

Machine integers are modelled as `Nat`/`Int` with explicit `% 2^32` where the
C code relies on `uint32_t` wrap-around.  Byte buffers are `List Nat`; a
nullable C pointer argument becomes `Option (List Nat)` (or a `Bool` flag for
pure out-parameters).  The external JBOD disk array (declared in src/jbod.h,
implemented outside this repository) is modelled from the spec, see
`JbodState` below.
-/

/-! ## Constants from src/jbod.h -/

def JBOD_NUM_DISKS : Nat := 16

def JBOD_DISK_SIZE : Nat := 65536

def JBOD_BLOCK_SIZE : Nat := 256

def JBOD_NUM_BLOCKS_PER_DISK : Nat := 256

def UINT32_MOD : Nat := 4294967296

/-! ## Cache data model (src/cache.c)

The C globals `cache` (a possibly-NULL pointer to an array of
`cache_entry_t`), `clock`, `num_queries` and `num_hits` become one state
record; `cache_size` always equals the length of the allocated array in the
C code, so it is derived from the entry list here. -/

structure CacheEntry where
  valid : Bool
  disk_num : Int
  block_num : Int
  block : List Nat
  clock_accesses : Int
deriving Repr, DecidableEq

/-- Default contents of a freshly allocated (still invalid) entry. -/
def blankEntry : CacheEntry :=
  ⟨false, 0, 0, List.replicate JBOD_BLOCK_SIZE 0, 0⟩

structure CacheState where
  cache : Option (List CacheEntry)
  clock : Int
  num_queries : Int
  num_hits : Int
deriving Repr, DecidableEq

/-- The C global `cache_size`: zero when the cache pointer is NULL. -/
def cache_size (s : CacheState) : Nat :=
  match s.cache with
  | none => 0
  | some l => l.length

/-- Source `cache_enabled`: cache pointer non-NULL and positive size. -/
def cache_enabled (s : CacheState) : Bool :=
  s.cache.isSome && decide (0 < cache_size s)

/-- The loop condition of the C helper `find_cache_entry`. -/
def entMatches (d b : Int) (e : CacheEntry) : Prop :=
  e.valid = true ∧ e.disk_num = d ∧ e.block_num = b

instance (d b : Int) (e : CacheEntry) : Decidable (entMatches d b e) := by
  unfold entMatches; exact inferInstance

/-- Loop of the C helper `find_cache_entry`, scanning from index `i`. -/
def find_entry_loop (d b : Int) : List CacheEntry → Nat → Option Nat
  | [], _ => none
  | e :: rest, i =>
      if entMatches d b e then some i else find_entry_loop d b rest (i + 1)

/-- Source `find_cache_entry`: first index whose valid entry matches
(disk_num, block_num); C returns -1 when absent, modelled as `none`. -/
def find_cache_entry (d b : Int) (l : List CacheEntry) : Option Nat :=
  find_entry_loop d b l 0

/-- Loop of the C helper `find_mru_entry`: running first-seen maximum of
`clock_accesses` over valid entries, with accumulator (mru_index, max_clock)
starting from (-1 modelled as `none`, -1). -/
def find_mru_loop : List CacheEntry → Nat → Option Nat × Int → Option Nat × Int
  | [], _, acc => acc
  | e :: rest, i, (mru, mx) =>
      if e.valid = true ∧ mx < e.clock_accesses then
        find_mru_loop rest (i + 1) (some i, e.clock_accesses)
      else
        find_mru_loop rest (i + 1) (mru, mx)

/-- Source `find_mru_entry`. -/
def find_mru_entry (l : List CacheEntry) : Option Nat :=
  (find_mru_loop l 0 (none, -1)).1

/-- Loop of the C helper `find_invalid_entry`, scanning from index `i`. -/
def find_invalid_loop : List CacheEntry → Nat → Option Nat
  | [], _ => none
  | e :: rest, i =>
      if e.valid = false then some i else find_invalid_loop rest (i + 1)

/-- Source `find_invalid_entry`: first invalid slot. -/
def find_invalid_entry (l : List CacheEntry) : Option Nat :=
  find_invalid_loop l 0

/-- Source `cache_create` (malloc modelled as always succeeding; the C code
only clears the `valid` flags of the fresh array and resets `clock`). -/
def cache_create (num_entries : Int) (s : CacheState) : Int × CacheState :=
  if s.cache.isSome = true ∨ num_entries < 2 ∨ 4096 < num_entries then
    (-1, s)
  else
    (1, { s with cache := some (List.replicate num_entries.toNat blankEntry)
                 clock := 0 })

/-- Source `cache_destroy`. -/
def cache_destroy (s : CacheState) : Int × CacheState :=
  match s.cache with
  | none => (-1, s)
  | some _ => (1, ⟨none, 0, 0, 0⟩)

/-- Source `cache_lookup`.  The caller's out-buffer becomes the middle
component of the result (`none` when nothing was copied); the `buf == NULL`
argument check is the `bufNull` flag. -/
def cache_lookup (d b : Int) (bufNull : Bool) (s : CacheState) :
    Int × Option (List Nat) × CacheState :=
  if cache_enabled s = false ∨ bufNull = true ∨ d < 0 ∨ b < 0 then
    (-1, none, s)
  else
    match s.cache with
    | none => (-1, none, s)
    | some l =>
        let s1 := { s with num_queries := s.num_queries + 1 }
        match find_cache_entry d b l with
        | some i =>
            let e := l.getD i blankEntry
            (1, some e.block,
              { s1 with num_hits := s1.num_hits + 1
                        clock := s.clock + 1
                        cache := some (l.set i
                          { e with clock_accesses := s.clock + 1 }) })
        | none => (-1, none, s1)

/-- Source `cache_update` (void; a silent no-op unless an entry exists). -/
def cache_update (d b : Int) (buf : Option (List Nat)) (s : CacheState) :
    CacheState :=
  if cache_enabled s = false ∨ buf = none ∨ d < 0 ∨ b < 0 then s
  else
    match s.cache, buf with
    | some l, some bytes =>
        match find_cache_entry d b l with
        | some i =>
            let e := l.getD i blankEntry
            { s with clock := s.clock + 1
                     cache := some (l.set i
                       { e with block := bytes, clock_accesses := s.clock + 1 }) }
        | none => s
    | _, _ => s

/-- Source `cache_insert`. -/
def cache_insert (d b : Int) (buf : Option (List Nat)) (s : CacheState) :
    Int × CacheState :=
  if cache_enabled s = false ∨ buf = none ∨ d < 0 ∨ b < 0 then (-1, s)
  else
    match s.cache, buf with
    | some l, some bytes =>
        if (find_cache_entry d b l).isSome = true then (-1, s)
        else
          let idx :=
            match find_invalid_entry l with
            | some i => some i
            | none => find_mru_entry l
          match idx with
          | none => (-1, s)
          | some i =>
              (1, { s with clock := s.clock + 1
                           cache := some (l.set i
                             ⟨true, d, b, bytes, s.clock + 1⟩) })
    | _, _ => (-1, s)

/-- Source `cache_resize`. -/
def cache_resize (new_size : Int) (s : CacheState) : Int × CacheState :=
  if new_size < 2 ∨ 4096 < new_size then (-1, s)
  else if cache_enabled s = false then cache_create new_size s
  else
    match s.cache with
    | none => cache_create new_size s
    | some l =>
        let n := new_size.toNat
        let copied := min n l.length
        (1, { s with
              cache := some (l.take copied ++
                List.replicate (n - copied) blankEntry) })

/-! ## Cache operation sequences -/

inductive CacheOp where
  | create (n : Int)
  | destroy
  | lookup (d b : Int) (bufNull : Bool)
  | update (d b : Int) (buf : Option (List Nat))
  | insert (d b : Int) (buf : Option (List Nat))
  | resize (n : Int)

/-- State transition of a single cache operation. -/
def cache_step (op : CacheOp) (s : CacheState) : CacheState :=
  match op with
  | .create n => (cache_create n s).2
  | .destroy => (cache_destroy s).2
  | .lookup d b bn => (cache_lookup d b bn s).2.2
  | .update d b buf => cache_update d b buf s
  | .insert d b buf => (cache_insert d b buf s).2
  | .resize n => (cache_resize n s).2

/-- Running a whole sequence of cache operations. -/
def cache_run (ops : List CacheOp) (s : CacheState) : CacheState :=
  ops.foldl (fun t op => cache_step op t) s

/-- The process start state: NULL cache pointer, all counters zero. -/
def initCacheState : CacheState := ⟨none, 0, 0, 0⟩

/-- States reachable from process start by some sequence of operations. -/
def CacheReachable (s : CacheState) : Prop :=
  ∃ ops, cache_run ops initCacheState = s

/-! ## Cache invariants -/

/-- Among valid entries, (disk_num, block_num) pairs are unique. -/
def Uniq (l : List CacheEntry) : Prop :=
  ∀ i j (hi : i < l.length) (hj : j < l.length), i ≠ j →
    (l.get ⟨i, hi⟩).valid = true → (l.get ⟨j, hj⟩).valid = true →
    ¬((l.get ⟨i, hi⟩).disk_num = (l.get ⟨j, hj⟩).disk_num ∧
      (l.get ⟨i, hi⟩).block_num = (l.get ⟨j, hj⟩).block_num)

/-- Main structural invariant of an existing cache: capacity within bounds
and unique keys among valid entries. -/
def CacheInv (s : CacheState) : Prop :=
  ∀ l, s.cache = some l → 2 ≤ l.length ∧ l.length ≤ 4096 ∧ Uniq l

/-- With a NULL cache pointer, the query and hit counters are zero. -/
def CounterInv (s : CacheState) : Prop :=
  s.cache = none → s.num_queries = 0 ∧ s.num_hits = 0

/-! ## JBOD operation encoding (src/mdadm.c encode_op) -/

/-- Source `encode_op`: `(cmd << 12) | (block_id << 4) | disk_id` with the
three `uint8_t` parameters truncated modulo 256. -/
def encode_op (cmd disk_id block_id : Nat) : Nat :=
  (((cmd % 256) <<< 12) ||| ((block_id % 256) <<< 4)) ||| (disk_id % 256)

/-- Modelled from the spec: the external JBOD disk array of §6 (function
`jbod_operation` is declared in src/jbod.h but implemented outside this
repository).  It owns 16 disks of 256 blocks of 256 bytes, keeps a
current-disk/current-block cursor set by the seek commands, and reads and
writes whole blocks at the cursor.  The `fail` flag models an array in a
failing condition: per the spec the entry point returns 0 on success and
nonzero on failure from an error space the core never interprets. -/
structure JbodState where
  disks : Nat → Nat → List Nat
  cur_disk : Nat
  cur_block : Nat
  fail : Bool

/-- Modelled from the spec: the disk-array entry point.  The operation word
is decoded by the fixed bit layout of §6: command in bits 12+, block index
in bits 4–11, disk index in bits 0–3. -/
def jbod_operation (op : Nat) (buf : Option (List Nat)) (j : JbodState) :
    Int × Option (List Nat) × JbodState :=
  if j.fail = true then (1, none, j)
  else
    let cmd := op >>> 12
    let dsk := op &&& 15
    let blk := (op >>> 4) &&& 255
    if cmd = 0 then (0, none, j)
    else if cmd = 1 then (0, none, j)
    else if cmd = 2 then (0, none, { j with cur_disk := dsk })
    else if cmd = 3 then (0, none, { j with cur_block := blk })
    else if cmd = 4 then (0, some (j.disks j.cur_disk j.cur_block), j)
    else if cmd = 5 then
      match buf with
      | some bytes =>
          (0, none, { j with disks := fun d k =>
            if d = j.cur_disk ∧ k = j.cur_block then bytes else j.disks d k })
      | none => (1, none, j)
    else (0, none, j)

/-! ## Address translation (the arithmetic of the read/write loops) -/

def disk_of (addr : Nat) : Nat := addr / JBOD_DISK_SIZE

def addr_in_disk (addr : Nat) : Nat := addr % JBOD_DISK_SIZE

def block_of (addr : Nat) : Nat := addr_in_disk addr / JBOD_BLOCK_SIZE

def offset_of (addr : Nat) : Nat := addr_in_disk addr % JBOD_BLOCK_SIZE

/-- Segment length: the C code clamps `remaining` to the bytes left in the
current block. -/
def seg_len (remaining off : Nat) : Nat :=
  if remaining > JBOD_BLOCK_SIZE - off then JBOD_BLOCK_SIZE - off else remaining

/-- The `memcpy(block + offset, data, data.length)` merge of a write: base
block with `data.length` bytes replaced starting at `off` (the loops only
call it with `off + data.length ≤ block length`). -/
def mem_write (blk : List Nat) (off : Nat) (data : List Nat) : List Nat :=
  blk.take off ++ data ++ blk.drop (off + data.length)

/-! ## Volume I/O engine state (src/mdadm.c globals) -/

structure MdadmState where
  mounted : Bool
  write_permission : Bool
deriving Repr, DecidableEq

structure ReadResult where
  ret : Int
  data : List Nat
  jbod : JbodState
  trace : List Nat

structure WriteResult where
  ret : Int
  jbod : JbodState
  trace : List Nat

/-- The while loop of source `mdadm_read`; `acc` is the data delivered so
far to the caller's buffer and `tr` the list of issued operation words. -/
def mdadm_read_loop (start_addr read_len : Nat) (bytes_read : Nat)
    (acc : List Nat) (j : JbodState) (tr : List Nat) : ReadResult :=
  if h : bytes_read < read_len then
    let addr := start_addr + bytes_read
    let op1 := encode_op 2 (disk_of addr % 16) 0
    let r1 := jbod_operation op1 none j
    if r1.1 ≠ 0 then ⟨-4, acc, r1.2.2, tr ++ [op1]⟩
    else
      let op2 := encode_op 3 0 (block_of addr % 256)
      let r2 := jbod_operation op2 none r1.2.2
      if r2.1 ≠ 0 then ⟨-4, acc, r2.2.2, tr ++ [op1, op2]⟩
      else
        let op3 := encode_op 4 0 0
        let r3 := jbod_operation op3 none r2.2.2
        if r3.1 ≠ 0 then ⟨-4, acc, r3.2.2, tr ++ [op1, op2, op3]⟩
        else
          mdadm_read_loop start_addr read_len
            (bytes_read + seg_len (read_len - bytes_read) (offset_of addr))
            (acc ++ ((r3.2.1.getD (List.replicate JBOD_BLOCK_SIZE 0)).drop
              (offset_of addr)).take
              (seg_len (read_len - bytes_read) (offset_of addr)))
            r3.2.2 (tr ++ [op1, op2, op3])
  else ⟨Int.ofNat bytes_read, acc, j, tr⟩
termination_by read_len - bytes_read
decreasing_by
  have hoff : offset_of (start_addr + bytes_read) < JBOD_BLOCK_SIZE :=
    Nat.mod_lt _ (by decide)
  have hseg : 1 ≤ seg_len (read_len - bytes_read)
      (offset_of (start_addr + bytes_read)) := by
    unfold seg_len
    split <;> omega
  omega

/-- Source `mdadm_read` argument checks followed by the loop. -/
def mdadm_read (start_addr read_len : Nat) (bufNull : Bool)
    (m : MdadmState) (j : JbodState) : ReadResult :=
  if m.mounted = false then ⟨-3, [], j, []⟩
  else if 1024 < read_len then ⟨-2, [], j, []⟩
  else if 0 < read_len ∧ bufNull = true then ⟨-4, [], j, []⟩
  else if JBOD_NUM_DISKS * JBOD_DISK_SIZE < (start_addr + read_len) % UINT32_MOD ∨
      (start_addr + read_len) % UINT32_MOD < start_addr then ⟨-1, [], j, []⟩
  else mdadm_read_loop start_addr read_len 0 [] j []

/-- The while loop of source `mdadm_write`. -/
def mdadm_write_loop (start_addr write_len : Nat) (buf : List Nat)
    (bytes_written : Nat) (j : JbodState) (tr : List Nat) : WriteResult :=
  if h : bytes_written < write_len then
    let addr := start_addr + bytes_written
    let n := seg_len (write_len - bytes_written) (offset_of addr)
    let op1 := encode_op 2 (disk_of addr) 0
    let r1 := jbod_operation op1 none j
    if r1.1 ≠ 0 then ⟨-4, r1.2.2, tr ++ [op1]⟩
    else
      let op2 := encode_op 3 0 (block_of addr)
      let r2 := jbod_operation op2 none r1.2.2
      if r2.1 ≠ 0 then ⟨-4, r2.2.2, tr ++ [op1, op2]⟩
      else
        if n < JBOD_BLOCK_SIZE ∨ offset_of addr ≠ 0 then
          let op3 := encode_op 4 0 0
          let r3 := jbod_operation op3 none r2.2.2
          if r3.1 ≠ 0 then ⟨-4, r3.2.2, tr ++ [op1, op2, op3]⟩
          else
            let op4 := encode_op 5 0 0
            let r4 := jbod_operation op4
              (some (mem_write (r3.2.1.getD (List.replicate JBOD_BLOCK_SIZE 0))
                (offset_of addr) ((buf.drop bytes_written).take n)))
              r3.2.2
            if r4.1 ≠ 0 then ⟨-4, r4.2.2, tr ++ [op1, op2, op3, op4]⟩
            else
              mdadm_write_loop start_addr write_len buf (bytes_written + n)
                r4.2.2 (tr ++ [op1, op2, op3, op4])
        else
          let op4 := encode_op 5 0 0
          let r4 := jbod_operation op4
            (some (mem_write (List.replicate JBOD_BLOCK_SIZE 0)
              (offset_of addr) ((buf.drop bytes_written).take n)))
            r2.2.2
          if r4.1 ≠ 0 then ⟨-4, r4.2.2, tr ++ [op1, op2, op4]⟩
          else
            mdadm_write_loop start_addr write_len buf (bytes_written + n)
              r4.2.2 (tr ++ [op1, op2, op4])
  else ⟨Int.ofNat bytes_written, j, tr⟩
termination_by write_len - bytes_written
decreasing_by
  all_goals
    have hoff : offset_of (start_addr + bytes_written) < JBOD_BLOCK_SIZE :=
      Nat.mod_lt _ (by decide)
    have hseg : 1 ≤ seg_len (write_len - bytes_written)
        (offset_of (start_addr + bytes_written)) := by
      unfold seg_len
      split <;> omega
    omega

/-- Source `mdadm_write` argument checks followed by the loop. -/
def mdadm_write (start_addr write_len : Nat) (buf : Option (List Nat))
    (m : MdadmState) (j : JbodState) : WriteResult :=
  if m.mounted = false then ⟨-3, j, []⟩
  else if m.write_permission = false then ⟨-5, j, []⟩
  else if 1024 < write_len then ⟨-2, j, []⟩
  else if 0 < write_len ∧ buf = none then ⟨-4, j, []⟩
  else if write_len = 0 then ⟨0, j, []⟩
  else if JBOD_NUM_DISKS * JBOD_DISK_SIZE < (start_addr + write_len) % UINT32_MOD ∨
      (start_addr + write_len) % UINT32_MOD < start_addr then ⟨-1, j, []⟩
  else mdadm_write_loop start_addr write_len (buf.getD []) 0 j []

/-- Source `mdadm_mount`. -/
def mdadm_mount (m : MdadmState) (j : JbodState) :
    Int × MdadmState × JbodState × List Nat :=
  if m.mounted = true then (-1, m, j, [])
  else
    let op := encode_op 0 0 0
    let r := jbod_operation op none j
    if r.1 = 0 then (1, { m with mounted := true }, r.2.2, [op])
    else (-1, m, r.2.2, [op])

/-- Source `mdadm_unmount`. -/
def mdadm_unmount (m : MdadmState) (j : JbodState) :
    Int × MdadmState × JbodState × List Nat :=
  if m.mounted = false then (-1, m, j, [])
  else
    let op := encode_op 1 0 0
    let r := jbod_operation op none j
    if r.1 = 0 then (1, { m with mounted := false }, r.2.2, [op])
    else (-1, m, r.2.2, [op])

/-- Source `mdadm_write_permission`: sets the flag, returns 0, issues no
disk-array operation. -/
def mdadm_write_permission (m : MdadmState) : Int × MdadmState × List Nat :=
  (0, { m with write_permission := true }, [])

/-- Source `mdadm_revoke_write_permission`. -/
def mdadm_revoke_write_permission (m : MdadmState) : Int × MdadmState × List Nat :=
  (0, { m with write_permission := false }, [])

/-! ## Concrete fixtures used by closed witness statements -/

/-- A healthy JBOD array holding zero-filled blocks. -/
def jbod0 : JbodState := ⟨fun _ _ => List.replicate JBOD_BLOCK_SIZE 0, 0, 0, false⟩

/-- A JBOD array in a failing condition: every operation reports an error. -/
def jbodFail : JbodState := ⟨fun _ _ => List.replicate JBOD_BLOCK_SIZE 0, 0, 0, true⟩

/-- Mounted volume state with write permission granted. -/
def mTT : MdadmState := ⟨true, true⟩

/-- Mounted volume state without write permission. -/
def mTF : MdadmState := ⟨true, false⟩


/-! ## Characterizations of the scan helpers -/

theorem find_entry_loop_none (d b : Int) (l : List CacheEntry) : ∀ (i : Nat),
    find_entry_loop d b l i = none →
    ∀ j (hj : j < l.length), ¬ entMatches d b (l.get ⟨j, hj⟩) := by
  induction l with
  | nil => intro i _ j hj; simp at hj
  | cons e rest ih =>
      intro i h j hj
      by_cases hm : entMatches d b e
      · simp [find_entry_loop, hm] at h
      · simp only [find_entry_loop, if_neg hm] at h
        match j with
        | 0 => simpa using hm
        | j' + 1 =>
            have := ih (i + 1) h j' (by simpa using hj)
            simpa using this

theorem find_entry_loop_some (d b : Int) (l : List CacheEntry) : ∀ (i k : Nat),
    find_entry_loop d b l i = some k →
    i ≤ k ∧ ∃ hk : k - i < l.length, entMatches d b (l.get ⟨k - i, hk⟩) := by
  induction l with
  | nil => intro i k h; simp [find_entry_loop] at h
  | cons e rest ih =>
      intro i k h
      by_cases hm : entMatches d b e
      · simp only [find_entry_loop, if_pos hm, Option.some.injEq] at h
        subst h
        exact ⟨le_refl i, by simpa using hm⟩
      · simp only [find_entry_loop, if_neg hm] at h
        obtain ⟨hik, hk, hmatch⟩ := ih (i + 1) k h
        refine ⟨by omega, ?_⟩
        have hki : k - i = (k - (i + 1)) + 1 := by omega
        rw [hki]
        refine ⟨by simpa using hk, ?_⟩
        simpa using hmatch

theorem find_cache_entry_none (d b : Int) (l : List CacheEntry)
    (h : find_cache_entry d b l = none) :
    ∀ j (hj : j < l.length), ¬ entMatches d b (l.get ⟨j, hj⟩) :=
  find_entry_loop_none d b l 0 h

theorem find_cache_entry_some (d b : Int) (l : List CacheEntry) (k : Nat)
    (h : find_cache_entry d b l = some k) :
    ∃ hk : k < l.length, entMatches d b (l.get ⟨k, hk⟩) := by
  have := (find_entry_loop_some d b l 0 k h).2
  simpa using this

theorem find_invalid_loop_some (l : List CacheEntry) : ∀ (i k : Nat),
    find_invalid_loop l i = some k →
    i ≤ k ∧ ∃ hk : k - i < l.length, (l.get ⟨k - i, hk⟩).valid = false := by
  induction l with
  | nil => intro i k h; simp [find_invalid_loop] at h
  | cons e rest ih =>
      intro i k h
      by_cases hm : e.valid = false
      · simp only [find_invalid_loop, if_pos hm, Option.some.injEq] at h
        subst h
        exact ⟨le_refl i, by simpa using hm⟩
      · simp only [find_invalid_loop, if_neg hm] at h
        obtain ⟨hik, hk, hv⟩ := ih (i + 1) k h
        refine ⟨by omega, ?_⟩
        have hki : k - i = (k - (i + 1)) + 1 := by omega
        rw [hki]
        refine ⟨by simpa using hk, ?_⟩
        simpa using hv

theorem find_invalid_entry_some (l : List CacheEntry) (k : Nat)
    (h : find_invalid_entry l = some k) :
    ∃ hk : k < l.length, (l.get ⟨k, hk⟩).valid = false := by
  have := (find_invalid_loop_some l 0 k h).2
  simpa using this

theorem find_mru_loop_const (l : List CacheEntry) : ∀ (i : Nat) (mru : Option Nat) (mx : Int),
    (∀ j (hj : j < l.length), (l.get ⟨j, hj⟩).clock_accesses ≤ mx) →
    find_mru_loop l i (mru, mx) = (mru, mx) := by
  induction l with
  | nil => intro i mru mx _; rfl
  | cons e rest ih =>
      intro i mru mx hle
      have h0 : e.clock_accesses ≤ mx := by simpa using hle 0 (by simp)
      have hcond : ¬(e.valid = true ∧ mx < e.clock_accesses) := by
        rintro ⟨-, hlt⟩; omega
      simp only [find_mru_loop, if_neg hcond]
      exact ih (i + 1) mru mx (fun j hj => by simpa using hle (j + 1) (by simpa using hj))

theorem find_mru_loop_max (l : List CacheEntry) : ∀ (i : Nat) (mru : Option Nat) (mx : Int),
    (∀ e ∈ l, e.valid = true) →
    (∃ j, ∃ hj : j < l.length, mx < (l.get ⟨j, hj⟩).clock_accesses) →
    ∃ j, ∃ hj : j < l.length,
      find_mru_loop l i (mru, mx) = (some (i + j), (l.get ⟨j, hj⟩).clock_accesses) ∧
      (∀ p (hp : p < l.length),
        (l.get ⟨p, hp⟩).clock_accesses ≤ (l.get ⟨j, hj⟩).clock_accesses) ∧
      (∀ p (hp : p < l.length), p < j →
        (l.get ⟨p, hp⟩).clock_accesses < (l.get ⟨j, hj⟩).clock_accesses) ∧
      mx < (l.get ⟨j, hj⟩).clock_accesses := by
  induction l with
  | nil => intro i mru mx _ hex; obtain ⟨j, hj, -⟩ := hex; simp at hj
  | cons e rest ih =>
      intro i mru mx hval hex
      have hev : e.valid = true := hval e (by simp)
      by_cases hm : mx < e.clock_accesses
      · have hcond : e.valid = true ∧ mx < e.clock_accesses := ⟨hev, hm⟩
        simp only [find_mru_loop, if_pos hcond]
        by_cases himp : ∃ j, ∃ hj : j < rest.length,
            e.clock_accesses < (rest.get ⟨j, hj⟩).clock_accesses
        · obtain ⟨j', hj', hres, hmax, hfirst, hgt⟩ :=
            ih (i + 1) (some i) e.clock_accesses
              (fun x hx => hval x (by simp [hx])) himp
          refine ⟨j' + 1, by simpa using hj', ?_, ?_, ?_, ?_⟩
          · have hidx : i + (j' + 1) = (i + 1) + j' := by omega
            rw [hidx]
            simpa using hres
          · intro p hp
            match p with
            | 0 => simpa using le_of_lt hgt
            | p' + 1 =>
                have := hmax p' (by simpa using hp)
                simpa using this
          · intro p hp hpj
            match p with
            | 0 => simpa using hgt
            | p' + 1 =>
                have := hfirst p' (by simpa using hp) (by omega)
                simpa using this
          · calc mx < e.clock_accesses := hm
              _ < _ := by simpa using hgt
        · push_neg at himp
          have hconst := find_mru_loop_const rest (i + 1) (some i) e.clock_accesses
              (fun j hj => himp j hj)
          refine ⟨0, by simp, ?_, ?_, ?_, ?_⟩
          · simpa using hconst
          · intro p hp
            match p with
            | 0 => simp
            | p' + 1 =>
                have := himp p' (by simpa using hp)
                simpa using this
          · intro p hp hpj; omega
          · simpa using hm
      · have hcond : ¬(e.valid = true ∧ mx < e.clock_accesses) := by
          rintro ⟨-, h⟩; exact hm h
        simp only [find_mru_loop, if_neg hcond]
        have hex' : ∃ j, ∃ hj : j < rest.length, mx < (rest.get ⟨j, hj⟩).clock_accesses := by
          obtain ⟨j, hj, hgt⟩ := hex
          match j with
          | 0 => exact absurd (by simpa using hgt) hm
          | j' + 1 => exact ⟨j', by simpa using hj, by simpa using hgt⟩
        obtain ⟨j', hj', hres, hmax, hfirst, hgt⟩ :=
          ih (i + 1) mru mx (fun x hx => hval x (by simp [hx])) hex'
        refine ⟨j' + 1, by simpa using hj', ?_, ?_, ?_, ?_⟩
        · have hidx : i + (j' + 1) = (i + 1) + j' := by omega
          rw [hidx]
          simpa using hres
        · intro p hp
          match p with
          | 0 =>
              have : e.clock_accesses ≤ mx := le_of_not_lt hm
              have := lt_of_le_of_lt this hgt
              simpa using le_of_lt this
          | p' + 1 =>
              have := hmax p' (by simpa using hp)
              simpa using this
        · intro p hp hpj
          match p with
          | 0 =>
              have : e.clock_accesses ≤ mx := le_of_not_lt hm
              have := lt_of_le_of_lt this hgt
              simpa using this
          | p' + 1 =>
              have := hfirst p' (by simpa using hp) (by omega)
              simpa using this
        · simpa using hgt

/-- First-index-of-maximum characterization of `find_mru_entry` for a cache
whose valid entries all carry the nonnegative ticks produced by the clock. -/
theorem find_mru_entry_spec (l : List CacheEntry)
    (hval : ∀ e ∈ l, e.valid = true)
    (hne : l ≠ [])
    (hclk : ∀ e ∈ l, 0 ≤ e.clock_accesses) :
    ∃ j, ∃ hj : j < l.length,
      find_mru_entry l = some j ∧
      (∀ p (hp : p < l.length),
        (l.get ⟨p, hp⟩).clock_accesses ≤ (l.get ⟨j, hj⟩).clock_accesses) ∧
      (∀ p (hp : p < l.length), p < j →
        (l.get ⟨p, hp⟩).clock_accesses < (l.get ⟨j, hj⟩).clock_accesses) := by
  have hlen : 0 < l.length := List.length_pos.mpr hne
  have hex : ∃ j, ∃ hj : j < l.length, (-1 : Int) < (l.get ⟨j, hj⟩).clock_accesses := by
    refine ⟨0, hlen, ?_⟩
    have := hclk (l.get ⟨0, hlen⟩) (List.get_mem l 0 hlen)
    omega
  obtain ⟨j, hj, hres, hmax, hfirst, -⟩ := find_mru_loop_max l 0 none (-1) hval hex
  refine ⟨j, hj, ?_, hmax, hfirst⟩
  unfold find_mru_entry
  rw [hres]
  simp

theorem uniq_replicate (n : Nat) : Uniq (List.replicate n blankEntry) := by
  intro i j hi hj hij hvi
  rw [List.get_eq_getElem, List.getElem_replicate] at hvi
  simp [blankEntry] at hvi

/-- Replacing an entry with one carrying the same valid flag and key
preserves key uniqueness. -/
theorem uniq_set_samekey (l : List CacheEntry) (i : Nat) (hi : i < l.length)
    (e' : CacheEntry)
    (hv : e'.valid = (l.get ⟨i, hi⟩).valid)
    (hd : e'.disk_num = (l.get ⟨i, hi⟩).disk_num)
    (hb : e'.block_num = (l.get ⟨i, hi⟩).block_num)
    (hu : Uniq l) : Uniq (l.set i e') := by
  intro p q hp hq hpq hvp hvq hkey
  rw [List.length_set] at hp hq
  have hgp : (l.set i e').get ⟨p, by simpa using hp⟩ =
      if i = p then e' else l.get ⟨p, hp⟩ := by
    rw [List.get_eq_getElem, List.getElem_set, List.get_eq_getElem]
  have hgq : (l.set i e').get ⟨q, by simpa using hq⟩ =
      if i = q then e' else l.get ⟨q, hq⟩ := by
    rw [List.get_eq_getElem, List.getElem_set, List.get_eq_getElem]
  rw [hgp] at hvp hkey
  rw [hgq] at hvq hkey
  by_cases hip : i = p
  · subst hip
    rw [if_pos rfl] at hvp hkey
    rw [if_neg hpq] at hvq hkey
    exact hu i q hi hq hpq (hv ▸ hvp) hvq ⟨hd ▸ hkey.1, hb ▸ hkey.2⟩
  · rw [if_neg hip] at hvp hkey
    by_cases hiq : i = q
    · subst hiq
      rw [if_pos rfl] at hvq hkey
      refine hu p i hp hi hpq hvp (hv ▸ hvq) ?_
      exact ⟨(hd ▸ hkey.1 : _), (hb ▸ hkey.2 : _)⟩
    · rw [if_neg hiq] at hvq hkey
      exact hu p q hp hq hpq hvp hvq hkey

/-- Writing a key that is nowhere present into any slot preserves key
uniqueness. -/
theorem uniq_set_freshkey (l : List CacheEntry) (i : Nat) (d b : Int)
    (bytes : List Nat) (c : Int)
    (habs : find_cache_entry d b l = none)
    (hu : Uniq l) : Uniq (l.set i ⟨true, d, b, bytes, c⟩) := by
  have hnone := find_cache_entry_none d b l habs
  intro p q hp hq hpq hvp hvq hkey
  rw [List.length_set] at hp hq
  have hgp : (l.set i ⟨true, d, b, bytes, c⟩).get ⟨p, by simpa using hp⟩ =
      if i = p then ⟨true, d, b, bytes, c⟩ else l.get ⟨p, hp⟩ := by
    rw [List.get_eq_getElem, List.getElem_set, List.get_eq_getElem]
  have hgq : (l.set i ⟨true, d, b, bytes, c⟩).get ⟨q, by simpa using hq⟩ =
      if i = q then ⟨true, d, b, bytes, c⟩ else l.get ⟨q, hq⟩ := by
    rw [List.get_eq_getElem, List.getElem_set, List.get_eq_getElem]
  rw [hgp] at hvp hkey
  rw [hgq] at hvq hkey
  by_cases hip : i = p
  · subst hip
    rw [if_pos rfl] at hkey
    rw [if_neg hpq] at hvq hkey
    exact hnone q hq ⟨hvq, hkey.1.symm, hkey.2.symm⟩
  · rw [if_neg hip] at hvp hkey
    by_cases hiq : i = q
    · subst hiq
      rw [if_pos rfl] at hkey
      exact hnone p hp ⟨hvp, hkey.1, hkey.2⟩
    · rw [if_neg hiq] at hvq hkey
      exact hu p q hp hq hpq hvp hvq hkey


/-- Taking a prefix and padding with invalid blanks preserves key
uniqueness. -/
theorem uniq_take_pad (l : List CacheEntry) (c m : Nat) (hc : c ≤ l.length)
    (hu : Uniq l) : Uniq (l.take c ++ List.replicate m blankEntry) := by
  intro p q hp hq hpq hvp hvq hkey
  have hlt : (List.take c l).length = c := by
    rw [List.length_take]; omega
  have hgen : ∀ x (hx : x < (List.take c l ++ List.replicate m blankEntry).length),
      c ≤ x → (List.take c l ++ List.replicate m blankEntry).get ⟨x, hx⟩ = blankEntry := by
    intro x hx hcx
    rw [List.get_eq_getElem, List.getElem_append_right (by rw [hlt]; exact hcx)]
    exact List.getElem_replicate _ _
  have hsmall : ∀ x (hx : x < (List.take c l ++ List.replicate m blankEntry).length)
      (hxc : x < c),
      (List.take c l ++ List.replicate m blankEntry).get ⟨x, hx⟩ =
        l.get ⟨x, lt_of_lt_of_le hxc hc⟩ := by
    intro x hx hxc
    rw [List.get_eq_getElem, List.getElem_append_left (by rw [hlt]; exact hxc)]
    rw [List.getElem_take, List.get_eq_getElem]
  by_cases hpc : p < c
  · by_cases hqc : q < c
    · rw [hsmall p hp hpc] at hvp hkey
      rw [hsmall q hq hqc] at hvq hkey
      exact hu p q _ _ hpq hvp hvq hkey
    · rw [hgen q hq (by omega)] at hvq
      simp [blankEntry] at hvq
  · rw [hgen p hp (by omega)] at hvp
    simp [blankEntry] at hvp

/-- A non-failing guard in lookup/update/insert forces an allocated cache. -/
theorem enabled_some (s : CacheState) (hen : cache_enabled s = true) :
    ∃ l, s.cache = some l := by
  have hsome : s.cache.isSome = true := by
    have h2 := hen
    simp [cache_enabled] at h2
    exact h2.1
  exact Option.isSome_iff_exists.mp hsome

theorem not_guard_enabled (s : CacheState) (P : Prop)
    (hg : ¬(cache_enabled s = false ∨ P)) : cache_enabled s = true := by
  rcases Bool.eq_false_or_eq_true (cache_enabled s) with ht | hf
  · exact ht
  · exact absurd (Or.inl hf) hg

theorem CacheInv_create (n : Int) (s : CacheState) (h : CacheInv s) :
    CacheInv (cache_create n s).2 := by
  by_cases hg : s.cache.isSome = true ∨ n < 2 ∨ 4096 < n
  · simp only [cache_create, if_pos hg]
    exact h
  · simp only [cache_create, if_neg hg]
    push_neg at hg
    intro l hl
    simp only [Option.some.injEq] at hl
    subst hl
    refine ⟨?_, ?_, uniq_replicate _⟩
    · rw [List.length_replicate]; omega
    · rw [List.length_replicate]; omega

theorem CacheInv_destroy (s : CacheState) (h : CacheInv s) :
    CacheInv (cache_destroy s).2 := by
  cases hsl : s.cache with
  | none => simp only [cache_destroy, hsl]; exact h
  | some l =>
      simp only [cache_destroy, hsl]
      intro l' hl'
      simp at hl'
theorem CacheInv_lookup (d b : Int) (bn : Bool) (s : CacheState) (h : CacheInv s) :
    CacheInv (cache_lookup d b bn s).2.2 := by
  by_cases hg : cache_enabled s = false ∨ bn = true ∨ d < 0 ∨ b < 0
  · simp only [cache_lookup, if_pos hg]
    exact h
  · have hgg := hg
    push_neg at hgg
    obtain ⟨hgf, hbn, hd0, hb0⟩ := hgg
    obtain ⟨l, hsl⟩ := enabled_some s (not_guard_enabled s _ hg)
    obtain ⟨h2, h4096, hu⟩ := h l hsl
    cases hfind : find_cache_entry d b l with
    | some i =>
        obtain ⟨hi, -⟩ := find_cache_entry_some d b l i hfind
        simp only [cache_lookup, if_neg hg, hsl, hfind]
        intro l' hl'
        simp at hl'
        subst hl'
        refine ⟨by rw [List.length_set]; exact h2,
                by rw [List.length_set]; exact h4096, ?_⟩
        refine uniq_set_samekey l i hi _ ?_ ?_ ?_ hu <;>
          simp [List.getElem?_eq_getElem hi, List.get_eq_getElem]
    | none =>
        simp only [cache_lookup, if_neg hg, hsl, hfind]
        intro l' hl'
        simp at hl'
        subst hl'
        exact ⟨h2, h4096, hu⟩

theorem CacheInv_update (d b : Int) (buf : Option (List Nat)) (s : CacheState)
    (h : CacheInv s) : CacheInv (cache_update d b buf s) := by
  by_cases hg : cache_enabled s = false ∨ buf = none ∨ d < 0 ∨ b < 0
  · simp only [cache_update, if_pos hg]
    exact h
  · have hgg := hg
    push_neg at hgg
    obtain ⟨hgf, hbuf0, hd0, hb0⟩ := hgg
    have hen : cache_enabled s = true := not_guard_enabled s _ hg
    obtain ⟨l, hsl⟩ := enabled_some s hen
    obtain ⟨h2, h4096, hu⟩ := h l hsl
    cases hbuf : buf with
    | none => exact absurd hbuf hbuf0
    | some bytes =>
        cases hfind : find_cache_entry d b l with
        | some i =>
            obtain ⟨hi, -⟩ := find_cache_entry_some d b l i hfind
            simp only [cache_update, hsl, hbuf, hfind, hen, not_lt.mpr hd0,
              not_lt.mpr hb0, Bool.true_eq_false, or_self, or_false, false_or,
              if_false]
            intro l' hl'
            simp at hl'
            subst hl'
            refine ⟨by rw [List.length_set]; exact h2,
                    by rw [List.length_set]; exact h4096, ?_⟩
            refine uniq_set_samekey l i hi _ ?_ ?_ ?_ hu <;>
              simp [List.getElem?_eq_getElem hi, List.get_eq_getElem]
        | none =>
            simp only [cache_update, hsl, hbuf, hfind, hen, not_lt.mpr hd0,
              not_lt.mpr hb0, Bool.true_eq_false, or_self, or_false, false_or,
              if_false]
            exact h

theorem CacheInv_insert (d b : Int) (buf : Option (List Nat)) (s : CacheState)
    (h : CacheInv s) : CacheInv (cache_insert d b buf s).2 := by
  by_cases hg : cache_enabled s = false ∨ buf = none ∨ d < 0 ∨ b < 0
  · simp only [cache_insert, if_pos hg]
    exact h
  · have hgg := hg
    push_neg at hgg
    obtain ⟨hgf, hbuf0, hd0, hb0⟩ := hgg
    have hen : cache_enabled s = true := not_guard_enabled s _ hg
    obtain ⟨l, hsl⟩ := enabled_some s hen
    obtain ⟨h2, h4096, hu⟩ := h l hsl
    cases hbuf : buf with
    | none => exact absurd hbuf hbuf0
    | some bytes =>
        cases hfind : find_cache_entry d b l with
        | some k =>
            simp only [cache_insert, hsl, hbuf, hfind, hen, not_lt.mpr hd0,
              not_lt.mpr hb0, Bool.true_eq_false, or_self, or_false, false_or,
              if_false, Option.isSome_some, if_true]
            exact h
        | none =>
            have habs : find_cache_entry d b l = none := hfind
            cases hinv : find_invalid_entry l with
            | some i =>
                simp only [cache_insert, hsl, hbuf, hfind, hinv, hen,
                  not_lt.mpr hd0, not_lt.mpr hb0, Bool.true_eq_false, or_self,
                  or_false, false_or, if_false, Option.isSome_none]
                intro l' hl'
                simp at hl'
                subst hl'
                exact ⟨by rw [List.length_set]; exact h2,
                       by rw [List.length_set]; exact h4096,
                       uniq_set_freshkey l i d b bytes (s.clock + 1) habs hu⟩
            | none =>
                cases hmru : find_mru_entry l with
                | some i =>
                    simp only [cache_insert, hsl, hbuf, hfind, hinv, hmru, hen,
                      not_lt.mpr hd0, not_lt.mpr hb0, Bool.true_eq_false, or_self,
                      or_false, false_or, if_false, Option.isSome_none]
                    intro l' hl'
                    simp at hl'
                    subst hl'
                    exact ⟨by rw [List.length_set]; exact h2,
                           by rw [List.length_set]; exact h4096,
                           uniq_set_freshkey l i d b bytes (s.clock + 1) habs hu⟩
                | none =>
                    simp only [cache_insert, hsl, hbuf, hfind, hinv, hmru, hen,
                      not_lt.mpr hd0, not_lt.mpr hb0, Bool.true_eq_false, or_self,
                      or_false, false_or, if_false, Option.isSome_none]
                    exact h

theorem CacheInv_resize (n : Int) (s : CacheState) (h : CacheInv s) :
    CacheInv (cache_resize n s).2 := by
  by_cases hg : n < 2 ∨ 4096 < n
  · simp only [cache_resize, if_pos hg]
    exact h
  · by_cases hen : cache_enabled s = false
    · simp only [cache_resize, if_neg hg, if_pos hen]
      exact CacheInv_create n s h
    · cases hsl : s.cache with
      | none =>
          simp only [cache_resize, if_neg hg, if_neg hen, hsl]
          exact CacheInv_create n s h
      | some l =>
          obtain ⟨h2, h4096, hu⟩ := h l hsl
          simp only [cache_resize, if_neg hg, if_neg hen, hsl]
          intro l' hl'
          simp at hl'
          subst hl'
          push_neg at hg
          have hcle : min n.toNat l.length ≤ l.length := min_le_right _ _
          have hlen : (l.take (min n.toNat l.length) ++
              List.replicate (n.toNat - min n.toNat l.length) blankEntry).length
              = n.toNat := by
            rw [List.length_append, List.length_take, List.length_replicate]
            omega
          refine ⟨?_, ?_, uniq_take_pad l _ _ hcle hu⟩
          · rw [hlen]; omega
          · rw [hlen]; omega

theorem CacheInv_step (op : CacheOp) (s : CacheState) (h : CacheInv s) :
    CacheInv (cache_step op s) := by
  cases op with
  | create n => exact CacheInv_create n s h
  | destroy => exact CacheInv_destroy s h
  | lookup d b bn => exact CacheInv_lookup d b bn s h
  | update d b buf => exact CacheInv_update d b buf s h
  | insert d b buf => exact CacheInv_insert d b buf s h
  | resize n => exact CacheInv_resize n s h

theorem CacheInv_run (ops : List CacheOp) : ∀ (s : CacheState), CacheInv s →
    CacheInv (cache_run ops s) := by
  induction ops with
  | nil => intro s h; exact h
  | cons op rest ih =>
      intro s h
      exact ih (cache_step op s) (CacheInv_step op s h)

theorem CounterInv_create (n : Int) (s : CacheState) (h : CounterInv s) :
    CounterInv (cache_create n s).2 := by
  by_cases hg : s.cache.isSome = true ∨ n < 2 ∨ 4096 < n
  · simp only [cache_create, if_pos hg]
    exact h
  · simp only [cache_create, if_neg hg]
    intro hnone
    simp at hnone

theorem CounterInv_destroy (s : CacheState) (h : CounterInv s) :
    CounterInv (cache_destroy s).2 := by
  cases hsl : s.cache with
  | none => simp only [cache_destroy, hsl]; exact h
  | some l =>
      simp only [cache_destroy, hsl]
      intro hnone
      exact ⟨rfl, rfl⟩

theorem CounterInv_lookup (d b : Int) (bn : Bool) (s : CacheState)
    (h : CounterInv s) : CounterInv (cache_lookup d b bn s).2.2 := by
  by_cases hg : cache_enabled s = false ∨ bn = true ∨ d < 0 ∨ b < 0
  · simp only [cache_lookup, if_pos hg]
    exact h
  · obtain ⟨l, hsl⟩ := enabled_some s (not_guard_enabled s _ hg)
    cases hfind : find_cache_entry d b l with
    | some i =>
        simp only [cache_lookup, if_neg hg, hsl, hfind]
        intro hnone
        simp at hnone
    | none =>
        simp only [cache_lookup, if_neg hg, hsl, hfind]
        intro hnone
        simp [hsl] at hnone

theorem CounterInv_update (d b : Int) (buf : Option (List Nat)) (s : CacheState)
    (h : CounterInv s) : CounterInv (cache_update d b buf s) := by
  by_cases hg : cache_enabled s = false ∨ buf = none ∨ d < 0 ∨ b < 0
  · simp only [cache_update, if_pos hg]
    exact h
  · have hgg := hg
    push_neg at hgg
    obtain ⟨hgf, hbuf0, hd0, hb0⟩ := hgg
    have hen : cache_enabled s = true := not_guard_enabled s _ hg
    obtain ⟨l, hsl⟩ := enabled_some s hen
    cases hbuf : buf with
    | none => exact absurd hbuf hbuf0
    | some bytes =>
        cases hfind : find_cache_entry d b l with
        | some i =>
            simp only [cache_update, hsl, hbuf, hfind, hen, not_lt.mpr hd0,
              not_lt.mpr hb0, Bool.true_eq_false, or_self, or_false, false_or,
              if_false]
            intro hnone
            simp at hnone
        | none =>
            simp only [cache_update, hsl, hbuf, hfind, hen, not_lt.mpr hd0,
              not_lt.mpr hb0, Bool.true_eq_false, or_self, or_false, false_or,
              if_false]
            exact h

theorem CounterInv_insert (d b : Int) (buf : Option (List Nat)) (s : CacheState)
    (h : CounterInv s) : CounterInv (cache_insert d b buf s).2 := by
  by_cases hg : cache_enabled s = false ∨ buf = none ∨ d < 0 ∨ b < 0
  · simp only [cache_insert, if_pos hg]
    exact h
  · have hgg := hg
    push_neg at hgg
    obtain ⟨hgf, hbuf0, hd0, hb0⟩ := hgg
    have hen : cache_enabled s = true := not_guard_enabled s _ hg
    obtain ⟨l, hsl⟩ := enabled_some s hen
    cases hbuf : buf with
    | none => exact absurd hbuf hbuf0
    | some bytes =>
        cases hfind : find_cache_entry d b l with
        | some k =>
            simp only [cache_insert, hsl, hbuf, hfind, hen, not_lt.mpr hd0,
              not_lt.mpr hb0, Bool.true_eq_false, or_self, or_false, false_or,
              if_false, Option.isSome_some, if_true]
            exact h
        | none =>
            cases hinv : find_invalid_entry l with
            | some i =>
                simp only [cache_insert, hsl, hbuf, hfind, hinv, hen,
                  not_lt.mpr hd0, not_lt.mpr hb0, Bool.true_eq_false, or_self,
                  or_false, false_or, if_false, Option.isSome_none]
                intro hnone
                simp at hnone
            | none =>
                cases hmru : find_mru_entry l with
                | some i =>
                    simp only [cache_insert, hsl, hbuf, hfind, hinv, hmru, hen,
                      not_lt.mpr hd0, not_lt.mpr hb0, Bool.true_eq_false, or_self,
                      or_false, false_or, if_false, Option.isSome_none]
                    intro hnone
                    simp at hnone
                | none =>
                    simp only [cache_insert, hsl, hbuf, hfind, hinv, hmru, hen,
                      not_lt.mpr hd0, not_lt.mpr hb0, Bool.true_eq_false, or_self,
                      or_false, false_or, if_false, Option.isSome_none]
                    exact h

theorem CounterInv_resize (n : Int) (s : CacheState) (h : CounterInv s) :
    CounterInv (cache_resize n s).2 := by
  by_cases hg : n < 2 ∨ 4096 < n
  · simp only [cache_resize, if_pos hg]
    exact h
  · by_cases hen : cache_enabled s = false
    · simp only [cache_resize, if_neg hg, if_pos hen]
      exact CounterInv_create n s h
    · cases hsl : s.cache with
      | none =>
          simp only [cache_resize, if_neg hg, if_neg hen, hsl]
          exact CounterInv_create n s h
      | some l =>
          simp only [cache_resize, if_neg hg, if_neg hen, hsl]
          intro hnone
          simp at hnone

theorem CounterInv_step (op : CacheOp) (s : CacheState) (h : CounterInv s) :
    CounterInv (cache_step op s) := by
  cases op with
  | create n => exact CounterInv_create n s h
  | destroy => exact CounterInv_destroy s h
  | lookup d b bn => exact CounterInv_lookup d b bn s h
  | update d b buf => exact CounterInv_update d b buf s h
  | insert d b buf => exact CounterInv_insert d b buf s h
  | resize n => exact CounterInv_resize n s h

theorem CounterInv_run (ops : List CacheOp) : ∀ (s : CacheState), CounterInv s →
    CounterInv (cache_run ops s) := by
  induction ops with
  | nil => intro s h; exact h
  | cons op rest ih =>
      intro s h
      exact ih (cache_step op s) (CounterInv_step op s h)

theorem CounterInv_reachable (s : CacheState) (h : CacheReachable s) :
    CounterInv s := by
  obtain ⟨ops, hops⟩ := h
  have : CounterInv initCacheState := by
    intro hnone
    exact ⟨rfl, rfl⟩
  simpa [hops] using CounterInv_run ops initCacheState this

/-- A lookup that reports a hit advances the clock by exactly one. -/
theorem cache_lookup_hit_clock (d b : Int) (bn : Bool) (s : CacheState)
    (hret : (cache_lookup d b bn s).1 = 1) :
    (cache_lookup d b bn s).2.2.clock = s.clock + 1 := by
  by_cases hg : cache_enabled s = false ∨ bn = true ∨ d < 0 ∨ b < 0
  · simp [cache_lookup, if_pos hg] at hret
  · obtain ⟨l, hsl⟩ := enabled_some s (not_guard_enabled s _ hg)
    cases hfind : find_cache_entry d b l with
    | some i => simp [cache_lookup, if_neg hg, hsl, hfind]
    | none => simp [cache_lookup, if_neg hg, hsl, hfind] at hret

/-- An insert that reports success advances the clock by exactly one. -/
theorem cache_insert_success_clock (d b : Int) (buf : Option (List Nat))
    (s : CacheState) (hret : (cache_insert d b buf s).1 = 1) :
    (cache_insert d b buf s).2.clock = s.clock + 1 := by
  by_cases hg : cache_enabled s = false ∨ buf = none ∨ d < 0 ∨ b < 0
  · simp [cache_insert, if_pos hg] at hret
  · have hgg := hg
    push_neg at hgg
    obtain ⟨hgf, hbuf0, hd0, hb0⟩ := hgg
    have hen : cache_enabled s = true := not_guard_enabled s _ hg
    obtain ⟨l, hsl⟩ := enabled_some s hen
    cases hbuf : buf with
    | none => exact absurd hbuf hbuf0
    | some bytes =>
        cases hfind : find_cache_entry d b l with
        | some k =>
            simp [cache_insert, hsl, hbuf, hfind, hen, not_lt.mpr hd0,
              not_lt.mpr hb0] at hret
        | none =>
            cases hinv : find_invalid_entry l with
            | some i =>
                simp [cache_insert, hsl, hbuf, hfind, hinv, hen,
                  not_lt.mpr hd0, not_lt.mpr hb0]
            | none =>
                cases hmru : find_mru_entry l with
                | some i =>
                    simp [cache_insert, hsl, hbuf, hfind, hinv, hmru, hen,
                      not_lt.mpr hd0, not_lt.mpr hb0]
                | none =>
                    simp [cache_insert, hsl, hbuf, hfind, hinv, hmru, hen,
                      not_lt.mpr hd0, not_lt.mpr hb0] at hret

/-- An update that refreshes an existing entry advances the clock by one. -/
theorem cache_update_existing_clock (d b : Int) (bytes : List Nat)
    (s : CacheState) (l : List CacheEntry) (i : Nat)
    (hen : cache_enabled s = true) (hd0 : 0 ≤ d) (hb0 : 0 ≤ b)
    (hsl : s.cache = some l) (hfind : find_cache_entry d b l = some i) :
    (cache_update d b (some bytes) s).clock = s.clock + 1 := by
  simp [cache_update, hsl, hfind, hen, not_lt.mpr hd0, not_lt.mpr hb0]

/-! ## Decoding lemmas for the operation word -/

theorem encode_seek_disk_decode : ∀ d : Fin 16,
    (encode_op 2 d.val 0) >>> 12 = 2 ∧ (encode_op 2 d.val 0) &&& 15 = d.val := by
  decide

set_option maxRecDepth 4000 in
theorem encode_seek_block_decode : ∀ b : Fin 256,
    (encode_op 3 0 b.val) >>> 12 = 3 ∧
    ((encode_op 3 0 b.val) >>> 4) &&& 255 = b.val := by
  decide

theorem jbod_seek_disk (d : Nat) (hd : d < 16) (j : JbodState)
    (hf : j.fail = false) :
    jbod_operation (encode_op 2 d 0) none j =
      (0, none, { j with cur_disk := d }) := by
  obtain ⟨h12, h15⟩ := encode_seek_disk_decode ⟨d, hd⟩
  simp [jbod_operation, hf, h12, h15]

theorem jbod_seek_block (b : Nat) (hb : b < 256) (j : JbodState)
    (hf : j.fail = false) :
    jbod_operation (encode_op 3 0 b) none j =
      (0, none, { j with cur_block := b }) := by
  obtain ⟨h12, h4⟩ := encode_seek_block_decode ⟨b, hb⟩
  simp [jbod_operation, hf, h12, h4]

theorem jbod_read_block (j : JbodState) (hf : j.fail = false) :
    jbod_operation (encode_op 4 0 0) none j =
      (0, some (j.disks j.cur_disk j.cur_block), j) := by
  have he : encode_op 4 0 0 = 16384 := by decide
  have h12 : (16384 : Nat) >>> 12 = 4 := by decide
  simp [jbod_operation, hf, he, h12]

theorem jbod_write_block (bytes : List Nat) (j : JbodState) (hf : j.fail = false) :
    jbod_operation (encode_op 5 0 0) (some bytes) j =
      (0, none, { j with disks := fun d k =>
        if d = j.cur_disk ∧ k = j.cur_block then bytes else j.disks d k }) := by
  have he : encode_op 5 0 0 = 20480 := by decide
  have h12 : (20480 : Nat) >>> 12 = 5 := by decide
  simp [jbod_operation, hf, he, h12]

/-! ## Byte-level facts about the merge step -/

theorem mem_write_length (blk data : List Nat) (off : Nat)
    (h : off + data.length ≤ blk.length) :
    (mem_write blk off data).length = blk.length := by
  unfold mem_write
  rw [List.length_append, List.length_append, List.length_take,
    List.length_drop]
  omega

theorem mem_write_getD_outside (blk data : List Nat) (off i : Nat)
    (h : off + data.length ≤ blk.length) (hi : i < blk.length)
    (hout : i < off ∨ off + data.length ≤ i) :
    (mem_write blk off data).getD i 0 = blk.getD i 0 := by
  have hlen := mem_write_length blk data off h
  rw [List.getD_eq_getElem _ _ (by rw [hlen]; exact hi),
    List.getD_eq_getElem _ _ hi]
  have htk : (blk.take off).length = off := by
    rw [List.length_take]; omega
  have hab : (blk.take off ++ data).length = off + data.length := by
    rw [List.length_append, htk]
  unfold mem_write
  rcases hout with hlt | hge
  · rw [List.getElem_append_left (by rw [hab]; omega)]
    rw [List.getElem_append_left (by rw [htk]; omega)]
    rw [List.getElem_take]
  · rw [List.getElem_append_right (by rw [hab]; omega)]
    simp only [hab]
    rw [List.getElem_drop]
    have hidx : off + data.length + (i - (off + data.length)) = i := by omega
    simp only [hidx]

theorem mem_write_getD_inside (blk data : List Nat) (off i : Nat)
    (h : off + data.length ≤ blk.length) (hin1 : off ≤ i)
    (hin2 : i < off + data.length) :
    (mem_write blk off data).getD i 0 = data.getD (i - off) 0 := by
  have hlen := mem_write_length blk data off h
  rw [List.getD_eq_getElem _ _ (by rw [hlen]; omega),
    List.getD_eq_getElem _ _ (by omega)]
  have htk : (blk.take off).length = off := by
    rw [List.length_take]; omega
  have hab : (blk.take off ++ data).length = off + data.length := by
    rw [List.length_append, htk]
  unfold mem_write
  rw [List.getElem_append_left (by rw [hab]; omega)]
  rw [List.getElem_append_right (by rw [htk]; omega)]
  simp only [htk]

/-! ## Single-segment evaluation of the write loop -/

theorem mdadm_write_loop_single (start len : Nat) (bs : List Nat) (j : JbodState)
    (hf : j.fail = false)
    (h0 : 0 < len)
    (hseg1 : len ≤ JBOD_BLOCK_SIZE - offset_of start)
    (hstart : start < JBOD_NUM_DISKS * JBOD_DISK_SIZE)
    (hbs : bs.length = len) :
    mdadm_write_loop start len bs 0 j [] =
      ⟨Int.ofNat len,
       { j with
         cur_disk := disk_of start
         cur_block := block_of start
         disks := fun d k =>
           if d = disk_of start ∧ k = block_of start then
             mem_write
               (if len < JBOD_BLOCK_SIZE ∨ offset_of start ≠ 0 then
                 j.disks (disk_of start) (block_of start)
                else List.replicate JBOD_BLOCK_SIZE 0)
               (offset_of start) bs
           else j.disks d k },
       if len < JBOD_BLOCK_SIZE ∨ offset_of start ≠ 0 then
         [encode_op 2 (disk_of start) 0, encode_op 3 0 (block_of start),
          encode_op 4 0 0, encode_op 5 0 0]
       else
         [encode_op 2 (disk_of start) 0, encode_op 3 0 (block_of start),
          encode_op 5 0 0]⟩ := by
  have hd16 : disk_of start < 16 := by
    unfold JBOD_NUM_DISKS JBOD_DISK_SIZE at hstart
    unfold disk_of JBOD_DISK_SIZE
    omega
  have hb256 : block_of start < 256 := by
    unfold block_of addr_in_disk JBOD_BLOCK_SIZE JBOD_DISK_SIZE
    omega
  have hseglen : seg_len (len - 0) (offset_of (start + 0)) = len := by
    simp only [Nat.add_zero, Nat.sub_zero]
    unfold seg_len
    rw [if_neg]
    omega
  have htake : (bs.drop 0).take len = bs := by
    rw [List.drop_zero]
    exact List.take_of_length_le (by omega)
  rw [mdadm_write_loop]
  rw [dif_pos h0]
  simp only [Nat.add_zero, Nat.sub_zero] at hseglen ⊢
  rw [hseglen, htake]
  rw [jbod_seek_disk (disk_of start) hd16 j hf]
  dsimp only
  rw [if_neg (show ¬((0 : Int) ≠ 0) by simp)]
  rw [jbod_seek_block (block_of start) hb256 _ (by simp [hf])]
  dsimp only
  rw [if_neg (show ¬((0 : Int) ≠ 0) by simp)]
  by_cases hrmw : len < JBOD_BLOCK_SIZE ∨ offset_of start ≠ 0
  · simp only [if_pos hrmw]
    rw [jbod_read_block _ (by simp [hf])]
    dsimp only
    rw [if_neg (show ¬((0 : Int) ≠ 0) by simp)]
    simp only [Option.getD_some]
    rw [jbod_write_block _ _ (by simp [hf])]
    dsimp only
    rw [if_neg (show ¬((0 : Int) ≠ 0) by simp)]
    simp only [Nat.zero_add]
    rw [mdadm_write_loop]
    rw [dif_neg (show ¬(len < len) by omega)]
    simp
  · simp only [if_neg hrmw]
    rw [jbod_write_block _ _ (by simp [hf])]
    dsimp only
    rw [if_neg (show ¬((0 : Int) ≠ 0) by simp)]
    simp only [Nat.zero_add]
    rw [mdadm_write_loop]
    rw [dif_neg (show ¬(len < len) by omega)]
    simp

theorem read_op_ne_seek_disk : ∀ d : Fin 16,
    ¬(encode_op 4 0 0 = encode_op 2 d.val 0) := by decide

set_option maxRecDepth 4000 in
theorem read_op_ne_seek_block : ∀ b : Fin 256,
    ¬(encode_op 4 0 0 = encode_op 3 0 b.val) := by decide

theorem read_op_ne_write_op : ¬(encode_op 4 0 0 = encode_op 5 0 0) := by decide

theorem find_invalid_loop_all_valid (l : List CacheEntry) : ∀ (i : Nat),
    (∀ e ∈ l, e.valid = true) → find_invalid_loop l i = none := by
  induction l with
  | nil => intro i _; rfl
  | cons e rest ih =>
      intro i hval
      have he : e.valid = true := hval e (by simp)
      simp only [find_invalid_loop, he, Bool.true_eq_false, if_false]
      exact ih (i + 1) (fun x hx => hval x (by simp [hx]))

/-! ## The specification claims -/

/-- C1: for every cache state in which every slot is valid (the cache is
full) and every (disk, block) pair not already present, insert replaces
exactly the valid entry whose last_access_tick is maximal at the time of
insertion; when several valid entries share that maximal tick, the one at
the lowest slot index is replaced.  (States are constrained to the
nonnegative ticks the clock actually produces.) -/
theorem C1_full_insert_evicts_mru (s : CacheState) (l : List CacheEntry)
    (d b : Int) (bytes : List Nat)
    (hsl : s.cache = some l) (hne : l ≠ [])
    (hval : ∀ e ∈ l, e.valid = true)
    (hclk : ∀ e ∈ l, 0 ≤ e.clock_accesses)
    (hd0 : 0 ≤ d) (hb0 : 0 ≤ b)
    (habs : find_cache_entry d b l = none) :
    ∃ i, ∃ hi : i < l.length,
      cache_insert d b (some bytes) s =
        (1, { s with clock := s.clock + 1
                     cache := some (l.set i ⟨true, d, b, bytes, s.clock + 1⟩) }) ∧
      (∀ p (hp : p < l.length),
        (l.get ⟨p, hp⟩).clock_accesses ≤ (l.get ⟨i, hi⟩).clock_accesses) ∧
      (∀ p (hp : p < l.length), p < i →
        (l.get ⟨p, hp⟩).clock_accesses < (l.get ⟨i, hi⟩).clock_accesses) := by
  have hlen0 : 0 < l.length := List.length_pos.mpr hne
  have hen : cache_enabled s = true := by
    simp [cache_enabled, cache_size, hsl, hlen0]
  obtain ⟨mru, hmru_lt, hmru_eq, hmax, hfirst⟩ := find_mru_entry_spec l hval hne hclk
  have hinv : find_invalid_entry l = none := find_invalid_loop_all_valid l 0 hval
  refine ⟨mru, hmru_lt, ?_, hmax, hfirst⟩
  simp only [cache_insert, hsl, habs, hinv, hmru_eq, hen, not_lt.mpr hd0,
    not_lt.mpr hb0, Bool.true_eq_false, or_self, or_false, false_or, if_false,
    Option.isSome_none]
  simp

/-- C1 witness: a concrete full two-slot cache where slot 1 holds the
maximal tick and is the one replaced. -/
theorem C1_full_insert_evicts_mru_witness :
    cache_insert 2 3 (some [9])
        ⟨some [⟨true, 0, 0, [5], 1⟩, ⟨true, 1, 0, [6], 2⟩], 2, 0, 0⟩ =
      (1, ⟨some [⟨true, 0, 0, [5], 1⟩, ⟨true, 2, 3, [9], 3⟩], 3, 0, 0⟩) := by
  obtain ⟨i, hi, heq, hmax, hfirst⟩ :=
    C1_full_insert_evicts_mru
      ⟨some [⟨true, 0, 0, [5], 1⟩, ⟨true, 1, 0, [6], 2⟩], 2, 0, 0⟩
      [⟨true, 0, 0, [5], 1⟩, ⟨true, 1, 0, [6], 2⟩] 2 3 [9] rfl (by decide)
      (by decide) (by decide) (by decide) (by decide) (by decide)
  have hi2 : i = 0 ∨ i = 1 := by
    have : i < 2 := by simpa using hi
    omega
  rcases hi2 with h0 | h1
  · subst h0
    have h10 := hmax 1 (by simp)
    rw [List.get_eq_getElem, List.get_eq_getElem] at h10
    simp at h10
  · subst h1
    simpa using heq

/-- C4: the translation used by the read and write loops computes
disk_index = a / 65536, block_index = (a mod 65536) / 256 and
offset_in_block = (a mod 65536) mod 256; address 0 maps to (0,0,0),
address 65536 to (1,0,0) and address 300 to (0,1,44); a segment's length
is min(remaining, 256 - offset_in_block). -/
theorem C4_address_translation :
    (∀ a, a < JBOD_NUM_DISKS * JBOD_DISK_SIZE →
      disk_of a = a / 65536 ∧ block_of a = (a % 65536) / 256 ∧
      offset_of a = (a % 65536) % 256) ∧
    (disk_of 0 = 0 ∧ block_of 0 = 0 ∧ offset_of 0 = 0) ∧
    (disk_of 65536 = 1 ∧ block_of 65536 = 0 ∧ offset_of 65536 = 0) ∧
    (disk_of 300 = 0 ∧ block_of 300 = 1 ∧ offset_of 300 = 44) ∧
    (∀ remaining off, off < JBOD_BLOCK_SIZE →
      seg_len remaining off = min remaining (JBOD_BLOCK_SIZE - off)) := by
  refine ⟨?_, ?_, ?_, ?_, ?_⟩
  · intro a ha
    exact ⟨rfl, rfl, rfl⟩
  · exact ⟨rfl, rfl, rfl⟩
  · exact ⟨rfl, rfl, rfl⟩
  · exact ⟨rfl, rfl, rfl⟩
  · intro remaining off hoff
    unfold seg_len
    split <;> omega

/-- C4 witness: the translation formulas and the segment-length clamp
evaluated at concrete inputs. -/
theorem C4_address_translation_witness :
    disk_of 300 = 0 ∧ block_of 300 = 1 ∧ offset_of 300 = 44 ∧
    seg_len 500 44 = min 500 (JBOD_BLOCK_SIZE - 44) ∧
    disk_of 70000 = 70000 / 65536 := by
  obtain ⟨hgen, -, -, h300, hseg⟩ := C4_address_translation
  exact ⟨h300.1, h300.2.1, h300.2.2, hseg 500 44 (by decide),
    (hgen 70000 (by decide)).1⟩

/-- C9: in every reachable state, init(capacity) fails if a cache already
exists or capacity is outside [2, 4096]; on success it allocates capacity
entries all marked invalid, and afterwards the access clock, query count
and hit count are all zero. -/
theorem C9_cache_create_spec (s : CacheState) (c : Int)
    (hreach : CacheReachable s) :
    ((s.cache ≠ none ∨ c < 2 ∨ 4096 < c) → cache_create c s = (-1, s)) ∧
    (s.cache = none → 2 ≤ c → c ≤ 4096 →
      (cache_create c s).1 = 1 ∧
      ∃ l, (cache_create c s).2.cache = some l ∧
        l.length = c.toNat ∧ (∀ e ∈ l, e.valid = false) ∧
        (cache_create c s).2.clock = 0 ∧
        (cache_create c s).2.num_queries = 0 ∧
        (cache_create c s).2.num_hits = 0) := by
  constructor
  · intro hfail
    have hguard : s.cache.isSome = true ∨ c < 2 ∨ 4096 < c := by
      rcases hfail with h | h | h
      · exact Or.inl (Option.isSome_iff_ne_none.mpr h)
      · exact Or.inr (Or.inl h)
      · exact Or.inr (Or.inr h)
    simp only [cache_create, if_pos hguard]
  · intro hnone h2 h4096
    obtain ⟨hq, hh⟩ := CounterInv_reachable s hreach hnone
    have hguard : ¬(s.cache.isSome = true ∨ c < 2 ∨ 4096 < c) := by
      push_neg
      refine ⟨?_, by omega, by omega⟩
      simp [hnone]
    have hcc : cache_create c s =
        (1, { s with cache := some (List.replicate c.toNat blankEntry)
                     clock := 0 }) := by
      simp only [cache_create, if_neg hguard]
    rw [hcc]
    refine ⟨rfl, List.replicate c.toNat blankEntry, rfl, List.length_replicate c.toNat blankEntry, ?_, rfl, hq, hh⟩
    intro e he
    rw [List.eq_of_mem_replicate he]
    rfl

/-- C9 witness: creating a capacity-2 cache from the reachable start state
succeeds with two invalid entries and zero clock and counters. -/
theorem C9_cache_create_spec_witness :
    (cache_create 2 initCacheState).1 = 1 ∧
    (cache_create 2 initCacheState).2.clock = 0 ∧
    (cache_create 2 initCacheState).2.num_queries = 0 ∧
    (cache_create 2 initCacheState).2.num_hits = 0 ∧
    cache_create 5000 initCacheState = (-1, initCacheState) := by
  obtain ⟨-, hok⟩ := C9_cache_create_spec initCacheState 2 ⟨[], rfl⟩
  obtain ⟨hret, l, -, -, -, hclk, hq, hh⟩ := hok rfl (by decide) (by decide)
  obtain ⟨hfail, -⟩ := C9_cache_create_spec initCacheState 5000 ⟨[], rfl⟩
  exact ⟨hret, hclk, hq, hh, hfail (by decide)⟩

/-- C10: for every call and in every state, grant_write_permission and
revoke_write_permission return 0, modify only the write_permission flag,
and never invoke the external disk-array interface. -/
theorem C10_permission_calls_frame (m : MdadmState) :
    mdadm_write_permission m = (0, { m with write_permission := true }, []) ∧
    mdadm_revoke_write_permission m =
      (0, { m with write_permission := false }, []) ∧
    (mdadm_write_permission m).2.1.mounted = m.mounted ∧
    (mdadm_revoke_write_permission m).2.1.mounted = m.mounted ∧
    (mdadm_write_permission m).2.2 = [] ∧
    (mdadm_revoke_write_permission m).2.2 = [] :=
  ⟨rfl, rfl, rfl, rfl, rfl, rfl⟩

/-- C6: for every enabled cache and every new_capacity in [2, 4096], resize
copies the first min(new_capacity, old_capacity) entries verbatim in
original slot order, discards the rest, and leaves entries beyond the
copied range invalid; resize outside [2, 4096] fails; resize on a
non-enabled cache behaves as init. -/
theorem C6_cache_resize_spec (s : CacheState) (l : List CacheEntry) (n : Int) :
    (¬(n < 2 ∨ 4096 < n) → s.cache = some l → l ≠ [] →
      (cache_resize n s).1 = 1 ∧
      ∃ l', (cache_resize n s).2.cache = some l' ∧
        l'.length = n.toNat ∧
        (∀ i, i < min n.toNat l.length →
          l'.getD i blankEntry = l.getD i blankEntry) ∧
        (∀ i, min n.toNat l.length ≤ i → i < n.toNat →
          (l'.getD i blankEntry).valid = false) ∧
        (cache_resize n s).2.clock = s.clock ∧
        (cache_resize n s).2.num_queries = s.num_queries ∧
        (cache_resize n s).2.num_hits = s.num_hits) ∧
    ((n < 2 ∨ 4096 < n) → cache_resize n s = (-1, s)) ∧
    (cache_enabled s = false → ¬(n < 2 ∨ 4096 < n) →
      cache_resize n s = cache_create n s) := by
  refine ⟨?_, ?_, ?_⟩
  · intro hg hsl hne
    have hlen0 : 0 < l.length := List.length_pos.mpr hne
    have hen : cache_enabled s = true := by
      simp [cache_enabled, cache_size, hsl, hlen0]
    have hcr : cache_resize n s =
        (1, { s with cache := some (l.take (min n.toNat l.length) ++
          List.replicate (n.toNat - min n.toNat l.length) blankEntry) }) := by
      simp only [cache_resize, if_neg hg, hen, Bool.true_eq_false, if_false,
        hsl]
    rw [hcr]
    have hmle : min n.toNat l.length ≤ l.length := min_le_right _ _
    have htk : (l.take (min n.toNat l.length)).length = min n.toNat l.length := by
      rw [List.length_take]
      omega
    have hlen : (l.take (min n.toNat l.length) ++
        List.replicate (n.toNat - min n.toNat l.length) blankEntry).length
        = n.toNat := by
      rw [List.length_append, htk, List.length_replicate]
      have : min n.toNat l.length ≤ n.toNat := min_le_left _ _
      omega
    refine ⟨rfl, _, rfl, hlen, ?_, ?_, rfl, rfl, rfl⟩
    · intro i hi
      have hil : i < l.length := by omega
      have hitot : i < (l.take (min n.toNat l.length) ++
          List.replicate (n.toNat - min n.toNat l.length) blankEntry).length := by
        rw [hlen]
        have : min n.toNat l.length ≤ n.toNat := min_le_left _ _
        omega
      rw [List.getD_eq_getElem _ _ hitot, List.getD_eq_getElem _ _ hil]
      rw [List.getElem_append_left (by rw [htk]; exact hi)]
      rw [List.getElem_take]
    · intro i hi1 hi2
      have hitot : i < (l.take (min n.toNat l.length) ++
          List.replicate (n.toNat - min n.toNat l.length) blankEntry).length := by
        rw [hlen]; exact hi2
      rw [List.getD_eq_getElem _ _ hitot]
      rw [List.getElem_append_right (by rw [htk]; exact hi1)]
      rw [List.getElem_replicate]
      rfl
  · intro hg
    simp only [cache_resize, if_pos hg]
  · intro hen hg
    simp only [cache_resize, if_neg hg, hen, if_true]

/-- C6 witness: shrinking a three-entry cache to capacity two keeps the
first two entries in order, and resize to 1 fails. -/
theorem C6_cache_resize_spec_witness :
    (cache_resize 2 ⟨some [⟨true, 0, 0, [5], 1⟩, ⟨true, 1, 0, [6], 2⟩,
        ⟨true, 2, 0, [7], 3⟩], 3, 4, 1⟩).1 = 1 ∧
    (cache_resize 1 ⟨some [⟨true, 0, 0, [5], 1⟩, ⟨true, 1, 0, [6], 2⟩,
        ⟨true, 2, 0, [7], 3⟩], 3, 4, 1⟩) =
      (-1, ⟨some [⟨true, 0, 0, [5], 1⟩, ⟨true, 1, 0, [6], 2⟩,
        ⟨true, 2, 0, [7], 3⟩], 3, 4, 1⟩) := by
  obtain ⟨hok, -, -⟩ := C6_cache_resize_spec
    ⟨some [⟨true, 0, 0, [5], 1⟩, ⟨true, 1, 0, [6], 2⟩, ⟨true, 2, 0, [7], 3⟩],
      3, 4, 1⟩
    [⟨true, 0, 0, [5], 1⟩, ⟨true, 1, 0, [6], 2⟩, ⟨true, 2, 0, [7], 3⟩] 2
  obtain ⟨hret, -⟩ := hok (by decide) rfl (by decide)
  obtain ⟨-, hfail, -⟩ := C6_cache_resize_spec
    ⟨some [⟨true, 0, 0, [5], 1⟩, ⟨true, 1, 0, [6], 2⟩, ⟨true, 2, 0, [7], 3⟩],
      3, 4, 1⟩
    [⟨true, 0, 0, [5], 1⟩, ⟨true, 1, 0, [6], 2⟩, ⟨true, 2, 0, [7], 3⟩] 1
  exact ⟨hret, hfail (by decide)⟩

/-- C7: every sequence of cache operations preserves the invariants that
among valid entries the (disk_num, block_num) pairs are unique and that the
capacity of an existing cache is in [2, 4096]; the access clock strictly
increases (by exactly one) on every hit, successful insert, and update of
an existing entry. -/
theorem C7_invariants_preserved :
    (∀ ops s, CacheInv s → CacheInv (cache_run ops s)) ∧
    (∀ d b bn s, (cache_lookup d b bn s).1 = 1 →
      s.clock < (cache_lookup d b bn s).2.2.clock ∧
      (cache_lookup d b bn s).2.2.clock = s.clock + 1) ∧
    (∀ d b buf s, (cache_insert d b buf s).1 = 1 →
      s.clock < (cache_insert d b buf s).2.clock ∧
      (cache_insert d b buf s).2.clock = s.clock + 1) ∧
    (∀ d b bytes s l i, cache_enabled s = true → 0 ≤ d → 0 ≤ b →
      s.cache = some l → find_cache_entry d b l = some i →
      s.clock < (cache_update d b (some bytes) s).clock ∧
      (cache_update d b (some bytes) s).clock = s.clock + 1) := by
  refine ⟨fun ops s h => CacheInv_run ops s h, ?_, ?_, ?_⟩
  · intro d b bn s h
    have hc := cache_lookup_hit_clock d b bn s h
    exact ⟨by omega, hc⟩
  · intro d b buf s h
    have hc := cache_insert_success_clock d b buf s h
    exact ⟨by omega, hc⟩
  · intro d b bytes s l i hen hd0 hb0 hsl hfind
    have hc := cache_update_existing_clock d b bytes s l i hen hd0 hb0 hsl hfind
    exact ⟨by omega, hc⟩

/-- C7 witness: the invariant holds after a concrete create-insert-lookup
run from the start state, and a concrete hit advances the clock from 5
to 6. -/
theorem C7_invariants_preserved_witness :
    CacheInv (cache_run [CacheOp.create 2, CacheOp.insert 0 0 (some [7]),
      CacheOp.lookup 0 0 false] initCacheState) ∧
    (cache_lookup 0 0 false
      ⟨some [⟨true, 0, 0, [7], 1⟩, ⟨true, 1, 0, [8], 2⟩], 5, 3, 1⟩).2.2.clock
      = 5 + 1 := by
  obtain ⟨hrun, hhit, -, -⟩ := C7_invariants_preserved
  refine ⟨hrun _ initCacheState ?_, ?_⟩
  · intro l hl
    simp [initCacheState] at hl
  · exact (hhit 0 0 false
      ⟨some [⟨true, 0, 0, [7], 1⟩, ⟨true, 1, 0, [8], 2⟩], 5, 3, 1⟩
      (by decide)).2

/-- C2 counterexample: a zero-length read while mounted at address 1048577
(one past the volume end) does not succeed with 0 — it fails with the
out-of-range error -1, because mdadm_read checks the address range even
for zero-length transfers. -/
theorem C2_zero_read_beyond_end_fails :
    (mdadm_read 1048577 0 false mTT jbod0).ret = -1 ∧
    ¬((mdadm_read 1048577 0 false mTT jbod0).ret = 0) := by
  constructor
  · simp [mdadm_read, mTT, JBOD_NUM_DISKS, JBOD_DISK_SIZE, UINT32_MOD]
  · simp [mdadm_read, mTT, JBOD_NUM_DISKS, JBOD_DISK_SIZE, UINT32_MOD]

/-- C2 (amended): while mounted, a zero-length read succeeds returning 0
with no disk-array operations exactly when start_addr is at most the volume
size, and fails with the out-of-range error when start_addr exceeds it; a
zero-length write while mounted with permission granted succeeds with any
buffer (including null) and any address, with no operations. -/
theorem C2_zero_length_spec (start : Nat) (bufNull : Bool)
    (buf : Option (List Nat)) (m : MdadmState) (j : JbodState)
    (hm : m.mounted = true) :
    (start ≤ JBOD_NUM_DISKS * JBOD_DISK_SIZE →
      mdadm_read start 0 bufNull m j = ⟨0, [], j, []⟩) ∧
    (JBOD_NUM_DISKS * JBOD_DISK_SIZE < start → start < UINT32_MOD →
      mdadm_read start 0 bufNull m j = ⟨-1, [], j, []⟩) ∧
    (m.write_permission = true → mdadm_write start 0 buf m j = ⟨0, j, []⟩) := by
  refine ⟨?_, ?_, ?_⟩
  · intro hstart
    have hsum : start % UINT32_MOD = start := by
      apply Nat.mod_eq_of_lt
      unfold JBOD_NUM_DISKS JBOD_DISK_SIZE at hstart
      unfold UINT32_MOD
      omega
    simp [mdadm_read, hm, hsum, not_lt.mpr hstart]
    rw [mdadm_read_loop]
    simp
  · intro hstart hlt
    have hsum : start % UINT32_MOD = start := Nat.mod_eq_of_lt hlt
    simp [mdadm_read, hm, hsum, hstart]
  · intro hp
    simp [mdadm_write, hm, hp]

/-- C2 witness: a mounted zero-length read at address 5 and a mounted,
permitted zero-length write with a null buffer at address 2000000 both
succeed returning 0 with no operations. -/
theorem C2_zero_length_spec_witness :
    mdadm_read 5 0 false mTT jbod0 = ⟨0, [], jbod0, []⟩ ∧
    mdadm_write 2000000 0 none mTT jbod0 = ⟨0, jbod0, []⟩ := by
  obtain ⟨hread, -, hwrite⟩ :=
    C2_zero_length_spec 5 false none mTT jbod0 rfl
  obtain ⟨-, -, hwrite2⟩ :=
    C2_zero_length_spec 2000000 false none mTT jbod0 rfl
  exact ⟨hread (by decide), hwrite2 rfl⟩

/-- C5 counterexample: a mounted, permitted write of length 0 at address
2000000 — where start_addr + length exceeds the total volume size — does
not fail: it succeeds returning 0, because the zero-length early return
precedes the range check. -/
theorem C5_zero_write_out_of_range_succeeds :
    (mdadm_write 2000000 0 none mTT jbod0).ret = 0 ∧
    ¬((mdadm_write 2000000 0 none mTT jbod0).ret < 0) := by
  constructor
  · simp [mdadm_write, mTT]
  · simp [mdadm_write, mTT]

/-- C5 (amended): reads with length > 1024 or a failing range check, writes
of positive length with length > 1024 or a failing range check, and mounted
writes without permission, fail with the corresponding error and perform no
disk-array operations (earlier guards taking precedence); a zero-length
write succeeds with no operations regardless of address. -/
theorem C5_guard_failures_no_ops (start len : Nat) (buf : Option (List Nat))
    (bufNull : Bool) (m : MdadmState) (j : JbodState) :
    (m.mounted = true → 1024 < len →
      mdadm_read start len bufNull m j = ⟨-2, [], j, []⟩) ∧
    (m.mounted = true → m.write_permission = true → 1024 < len →
      mdadm_write start len buf m j = ⟨-2, j, []⟩) ∧
    (m.mounted = true → len ≤ 1024 → bufNull = false →
      (JBOD_NUM_DISKS * JBOD_DISK_SIZE < (start + len) % UINT32_MOD ∨
        (start + len) % UINT32_MOD < start) →
      mdadm_read start len bufNull m j = ⟨-1, [], j, []⟩) ∧
    (m.mounted = true → m.write_permission = true → 0 < len → len ≤ 1024 →
      buf ≠ none →
      (JBOD_NUM_DISKS * JBOD_DISK_SIZE < (start + len) % UINT32_MOD ∨
        (start + len) % UINT32_MOD < start) →
      mdadm_write start len buf m j = ⟨-1, j, []⟩) ∧
    (m.mounted = true → m.write_permission = false →
      mdadm_write start len buf m j = ⟨-5, j, []⟩) ∧
    (m.mounted = true → m.write_permission = true → len = 0 →
      mdadm_write start len buf m j = ⟨0, j, []⟩) := by
  refine ⟨?_, ?_, ?_, ?_, ?_, ?_⟩
  · intro hm hlen
    simp [mdadm_read, hm, hlen]
  · intro hm hp hlen
    simp [mdadm_write, hm, hp, hlen]
  · intro hm hlen hbn hrange
    simp [mdadm_read, hm, hbn, not_lt.mpr hlen, hrange]
  · intro hm hp h0 hlen hbuf hrange
    cases hbuf2 : buf with
    | none => exact absurd hbuf2 hbuf
    | some bytes =>
        simp [mdadm_write, hm, hp, hbuf2, not_lt.mpr hlen, hrange,
          show len ≠ 0 by omega]
  · intro hm hp
    simp [mdadm_write, hm, hp]
  · intro hm hp hlen
    simp [mdadm_write, hm, hp, hlen]

/-- C5 witness: concrete over-long read, out-of-range write, and
permissionless write all fail with their codes and an empty trace. -/
theorem C5_guard_failures_no_ops_witness :
    mdadm_read 0 2000 false mTT jbod0 = ⟨-2, [], jbod0, []⟩ ∧
    mdadm_write 1048575 100 (some [1]) mTT jbod0 = ⟨-1, jbod0, []⟩ ∧
    mdadm_write 0 3 (some [1, 2, 3]) mTF jbod0 = ⟨-5, jbod0, []⟩ := by
  obtain ⟨h1, -, -, -, -, -⟩ :=
    C5_guard_failures_no_ops 0 2000 (some [1]) false mTT jbod0
  obtain ⟨-, -, -, h4, -, -⟩ :=
    C5_guard_failures_no_ops 1048575 100 (some [1]) false mTT jbod0
  obtain ⟨-, -, -, -, h5, -⟩ :=
    C5_guard_failures_no_ops 0 3 (some [1, 2, 3]) false mTF jbod0
  exact ⟨h1 rfl (by decide),
    h4 rfl rfl (by decide) (by decide) (by simp) (by decide),
    h5 rfl rfl⟩

/-- C8 counterexample: two different failure causes return the same value:
a mounted read with a null buffer (NullBuffer) returns -4, and a mounted
read on a failing device (DeviceError) also returns -4, so callers cannot
discriminate these two causes. -/
theorem C8_null_and_device_error_collide :
    (mdadm_read 0 5 true mTT jbod0).ret = -4 ∧
    (mdadm_read 0 5 false mTT jbodFail).ret = -4 := by
  constructor
  · simp [mdadm_read, mTT, JBOD_NUM_DISKS, JBOD_DISK_SIZE, UINT32_MOD]
  · simp [mdadm_read, mTT, JBOD_NUM_DISKS, JBOD_DISK_SIZE, UINT32_MOD]
    rw [mdadm_read_loop]
    simp [jbod_operation, jbodFail]

/-- C8 (amended): the failure kinds map to fixed negative result values in
both read and write — NotMounted -3, LengthTooLarge -2, OutOfRange -1,
PermissionDenied -5, which are pairwise distinct and distinct from -4 — but
NullBuffer and DeviceError share the value -4 in read and in write, so
those two causes are not distinguishable. -/
theorem C8_error_code_map (start len : Nat) (buf : List Nat) (bufNull : Bool)
    (m : MdadmState) (j : JbodState) :
    (m.mounted = false → (mdadm_read start len bufNull m j).ret = -3 ∧
      (mdadm_write start len (some buf) m j).ret = -3) ∧
    (m.mounted = true → 1024 < len →
      (mdadm_read start len bufNull m j).ret = -2) ∧
    (m.mounted = true → m.write_permission = true → 1024 < len →
      (mdadm_write start len (some buf) m j).ret = -2) ∧
    (m.mounted = true → 0 < len → len ≤ 1024 →
      (mdadm_read start len true m j).ret = -4) ∧
    (m.mounted = true → m.write_permission = true → 0 < len → len ≤ 1024 →
      (mdadm_write start len none m j).ret = -4) ∧
    (m.mounted = true → m.write_permission = false →
      (mdadm_write start len (some buf) m j).ret = -5) ∧
    (m.mounted = true → len ≤ 1024 → bufNull = false →
      (JBOD_NUM_DISKS * JBOD_DISK_SIZE < (start + len) % UINT32_MOD ∨
        (start + len) % UINT32_MOD < start) →
      (mdadm_read start len bufNull m j).ret = -1) ∧
    (m.mounted = true → m.write_permission = true → 0 < len → len ≤ 1024 →
      (JBOD_NUM_DISKS * JBOD_DISK_SIZE < (start + len) % UINT32_MOD ∨
        (start + len) % UINT32_MOD < start) →
      (mdadm_write start len (some buf) m j).ret = -1) ∧
    (m.mounted = true → j.fail = true → 0 < len → len ≤ 1024 →
      start + len ≤ JBOD_NUM_DISKS * JBOD_DISK_SIZE →
      (mdadm_read start len false m j).ret = -4 ∧
      (m.write_permission = true →
        (mdadm_write start len (some buf) m j).ret = -4)) ∧
    ((-3 : Int) ≠ -2 ∧ (-3 : Int) ≠ -1 ∧ (-3 : Int) ≠ -5 ∧ (-2 : Int) ≠ -1 ∧
      (-2 : Int) ≠ -5 ∧ (-1 : Int) ≠ -5 ∧ (-3 : Int) ≠ -4 ∧ (-2 : Int) ≠ -4 ∧
      (-1 : Int) ≠ -4 ∧ (-5 : Int) ≠ -4) := by
  refine ⟨?_, ?_, ?_, ?_, ?_, ?_, ?_, ?_, ?_, by norm_num⟩
  · intro hm
    constructor
    · simp [mdadm_read, hm]
    · simp [mdadm_write, hm]
  · intro hm hlen
    simp [mdadm_read, hm, hlen]
  · intro hm hp hlen
    simp [mdadm_write, hm, hp, hlen]
  · intro hm h0 hlen
    simp [mdadm_read, hm, h0, not_lt.mpr hlen]
  · intro hm hp h0 hlen
    simp [mdadm_write, hm, hp, h0, not_lt.mpr hlen]
  · intro hm hp
    simp [mdadm_write, hm, hp]
  · intro hm hlen hbn hrange
    simp [mdadm_read, hm, hbn, not_lt.mpr hlen, hrange]
  · intro hm hp h0 hlen hrange
    simp [mdadm_write, hm, hp, not_lt.mpr hlen, hrange,
      show len ≠ 0 by omega]
  · intro hm hfail h0 hlen hrange
    have hsum : (start + len) % UINT32_MOD = start + len := by
      apply Nat.mod_eq_of_lt
      unfold JBOD_NUM_DISKS JBOD_DISK_SIZE at hrange
      unfold UINT32_MOD
      omega
    constructor
    · simp [mdadm_read, hm, not_lt.mpr hlen, hsum, not_lt.mpr hrange,
        show ¬(start + len < start) by omega]
      rw [mdadm_read_loop]
      rw [dif_pos h0]
      simp [jbod_operation, hfail]
    · intro hp
      simp [mdadm_write, hm, hp, not_lt.mpr hlen, hsum, not_lt.mpr hrange,
        show len ≠ 0 by omega, show ¬(start + len < start) by omega]
      rw [mdadm_write_loop]
      rw [dif_pos h0]
      simp [jbod_operation, hfail]

/-- C8 witness: the amended map evaluated on concrete calls: unmounted read
and write -3, over-long read and write -2, null-buffer read and write -4,
permissionless write -5, out-of-range read and write -1, device-error read
and write -4. -/
theorem C8_error_code_map_witness :
    (mdadm_read 0 5 true ⟨false, false⟩ jbod0).ret = -3 ∧
    (mdadm_write 0 5 (some [1, 2, 3, 4, 5]) ⟨false, false⟩ jbod0).ret = -3 ∧
    (mdadm_read 0 2000 false mTT jbod0).ret = -2 ∧
    (mdadm_write 0 2000 (some [1]) mTT jbod0).ret = -2 ∧
    (mdadm_read 0 5 true mTT jbod0).ret = -4 ∧
    (mdadm_write 0 5 none mTT jbod0).ret = -4 ∧
    (mdadm_write 0 5 (some [1, 2, 3, 4, 5]) mTF jbod0).ret = -5 ∧
    (mdadm_read 1048575 100 false mTT jbod0).ret = -1 ∧
    (mdadm_write 1048575 100 (some [1]) mTT jbod0).ret = -1 ∧
    (mdadm_read 0 5 false mTT jbodFail).ret = -4 ∧
    (mdadm_write 0 5 (some [1, 2, 3, 4, 5]) mTT jbodFail).ret = -4 := by
  obtain ⟨hnm, -, -, -, -, -, -, -, -, -⟩ :=
    C8_error_code_map 0 5 [1, 2, 3, 4, 5] true ⟨false, false⟩ jbod0
  obtain ⟨-, hlong, hlongw, -, -, -, -, -, -, -⟩ :=
    C8_error_code_map 0 2000 [1] false mTT jbod0
  obtain ⟨-, -, -, hnull, hnullw, -, -, -, -, -⟩ :=
    C8_error_code_map 0 5 [1] true mTT jbod0
  obtain ⟨-, -, -, -, -, hperm, -, -, -, -⟩ :=
    C8_error_code_map 0 5 [1, 2, 3, 4, 5] false mTF jbod0
  obtain ⟨-, -, -, -, -, -, hrange, hrangew, -, -⟩ :=
    C8_error_code_map 1048575 100 [1] false mTT jbod0
  obtain ⟨-, -, -, -, -, -, -, -, hdev, -⟩ :=
    C8_error_code_map 0 5 [1, 2, 3, 4, 5] false mTT jbodFail
  refine ⟨(hnm rfl).1, (hnm rfl).2, hlong rfl (by decide),
    hlongw rfl rfl (by decide), hnull rfl (by decide) (by decide),
    hnullw rfl rfl (by decide) (by decide), hperm rfl rfl,
    hrange rfl (by decide) rfl (by decide),
    hrangew rfl rfl (by decide) (by decide) (by decide),
    (hdev rfl rfl (by decide) (by decide) (by decide)).1,
    (hdev rfl rfl (by decide) (by decide) (by decide)).2 rfl⟩

/-- C3: for every in-range single-segment write that does not exactly cover
a whole aligned block (length < 256 or offset-in-block nonzero), the engine
reads the existing block (a read-block command appears in the trace),
merges the caller's bytes at the segment offset and writes the block back,
so every byte of the block outside the written range keeps its pre-write
value and every byte inside carries the caller's data; a segment exactly
covering a whole aligned block skips the pre-read. -/
theorem C3_partial_write_rmw (start len : Nat) (bs : List Nat)
    (m : MdadmState) (j : JbodState)
    (hm : m.mounted = true) (hp : m.write_permission = true)
    (hf : j.fail = false)
    (h0 : 0 < len) (h1024 : len ≤ 1024)
    (hseg : len ≤ JBOD_BLOCK_SIZE - offset_of start)
    (hrange : start + len ≤ JBOD_NUM_DISKS * JBOD_DISK_SIZE)
    (hbs : bs.length = len)
    (hblk : (j.disks (disk_of start) (block_of start)).length = JBOD_BLOCK_SIZE) :
    (mdadm_write start len (some bs) m j).ret = Int.ofNat len ∧
    (∀ i, i < JBOD_BLOCK_SIZE → i < offset_of start ∨ offset_of start + len ≤ i →
      ((mdadm_write start len (some bs) m j).jbod.disks (disk_of start)
        (block_of start)).getD i 0 =
      (j.disks (disk_of start) (block_of start)).getD i 0) ∧
    (∀ i, offset_of start ≤ i → i < offset_of start + len →
      ((mdadm_write start len (some bs) m j).jbod.disks (disk_of start)
        (block_of start)).getD i 0 = bs.getD (i - offset_of start) 0) ∧
    (encode_op 4 0 0 ∈ (mdadm_write start len (some bs) m j).trace ↔
      (len < JBOD_BLOCK_SIZE ∨ offset_of start ≠ 0)) ∧
    (∀ d k, ¬(d = disk_of start ∧ k = block_of start) →
      (mdadm_write start len (some bs) m j).jbod.disks d k = j.disks d k) := by
  have hoff : offset_of start < JBOD_BLOCK_SIZE := Nat.mod_lt _ (by decide)
  have hstart : start < JBOD_NUM_DISKS * JBOD_DISK_SIZE := by omega
  have hd16 : disk_of start < 16 := by
    unfold JBOD_NUM_DISKS JBOD_DISK_SIZE at hstart
    unfold disk_of JBOD_DISK_SIZE
    omega
  have hb256 : block_of start < 256 := by
    unfold block_of addr_in_disk JBOD_BLOCK_SIZE JBOD_DISK_SIZE
    omega
  have hsum : (start + len) % UINT32_MOD = start + len := by
    apply Nat.mod_eq_of_lt
    unfold UINT32_MOD
    unfold JBOD_NUM_DISKS JBOD_DISK_SIZE at hrange
    omega
  have hw : mdadm_write start len (some bs) m j =
      mdadm_write_loop start len bs 0 j [] := by
    unfold mdadm_write
    simp [hm, hp, hsum, not_lt.mpr h1024, not_lt.mpr hrange,
      show len ≠ 0 by omega, show ¬(start + len < start) by omega]
  rw [hw, mdadm_write_loop_single start len bs j hf h0 hseg hstart hbs]
  have hblen : offset_of start + bs.length ≤
      (j.disks (disk_of start) (block_of start)).length := by
    rw [hbs, hblk]; omega
  refine ⟨rfl, ?_, ?_, ?_, ?_⟩
  · intro i hi hout
    dsimp only
    rw [if_pos ⟨rfl, rfl⟩]
    by_cases hrmw : len < JBOD_BLOCK_SIZE ∨ offset_of start ≠ 0
    · rw [if_pos hrmw]
      exact mem_write_getD_outside _ bs _ i hblen (by rw [hblk]; exact hi)
        (by rw [hbs]; exact hout)
    · push_neg at hrmw
      omega
  · intro i hi1 hi2
    dsimp only
    rw [if_pos ⟨rfl, rfl⟩]
    by_cases hrmw : len < JBOD_BLOCK_SIZE ∨ offset_of start ≠ 0
    · rw [if_pos hrmw]
      exact mem_write_getD_inside _ bs _ i hblen hi1 (by rw [hbs]; exact hi2)
    · rw [if_neg hrmw]
      refine mem_write_getD_inside _ bs _ i ?_ hi1 (by rw [hbs]; exact hi2)
      rw [List.length_replicate, hbs]
      omega
  · dsimp only
    by_cases hrmw : len < JBOD_BLOCK_SIZE ∨ offset_of start ≠ 0
    · simp only [if_pos hrmw]
      simp [hrmw]
    · simp only [if_neg hrmw]
      simp [hrmw, read_op_ne_seek_disk ⟨disk_of start, hd16⟩,
        read_op_ne_seek_block ⟨block_of start, hb256⟩, read_op_ne_write_op]
  · intro d k hdk
    dsimp only
    rw [if_neg hdk]

set_option maxRecDepth 4000 in
/-- C3 witness: writing 5 bytes at address 300 (disk 0, block 1, offset 44)
returns 5, leaves byte 0 of the block unchanged, places the first caller
byte at offset 44, and issues a pre-read; the pre-read is present in the
trace because the segment is partial. -/
theorem C3_partial_write_rmw_witness :
    (mdadm_write 300 5 (some [1, 2, 3, 4, 5]) mTT jbod0).ret = Int.ofNat 5 ∧
    ((mdadm_write 300 5 (some [1, 2, 3, 4, 5]) mTT jbod0).jbod.disks
      (disk_of 300) (block_of 300)).getD 0 0 =
      (jbod0.disks (disk_of 300) (block_of 300)).getD 0 0 ∧
    ((mdadm_write 300 5 (some [1, 2, 3, 4, 5]) mTT jbod0).jbod.disks
      (disk_of 300) (block_of 300)).getD 44 0 =
      ([1, 2, 3, 4, 5] : List Nat).getD 0 0 ∧
    encode_op 4 0 0 ∈ (mdadm_write 300 5 (some [1, 2, 3, 4, 5]) mTT jbod0).trace := by
  obtain ⟨h1, h2, h3, h4, -⟩ :=
    C3_partial_write_rmw 300 5 [1, 2, 3, 4, 5] mTT jbod0 rfl rfl rfl
      (by decide) (by decide) (by decide) (by decide) (by decide) (by decide)
  refine ⟨h1, h2 0 (by decide) (by decide), ?_, h4.mpr (by decide)⟩
  have := h3 44 (by decide) (by decide)
  simpa using this
